import Mathlib

/-!
Verification of the ayon-backend access-control permission merge
(`AccessGroups.combine`, `src/ayon_server/access/access_groups.py`) and the
settings override-resolution engine (`src/api/settings/settings.py`,
`src/openpype/addons/addon.py`), shallowly embedded in Lean.

The `Permissions` value type (`ayon_server/access/permissions.py`) is not part
of the provided sources; its shape is modelled from the specification (§3):
each permission category carries an `enabled` flag plus a value set
(folder-access pairs, attribute names, endpoint names or addon names), the
`project_settings` category additionally carries the `anatomy_update` flag,
and the default `Permissions()` has every category disabled with empty value
sets.  Python's unordered `set` values are modelled as `Finset`.
-/
/-- One folder-access entry (`FolderAccess` pydantic model): an access type
("read"/"write"...) together with a path template. -/
structure FolderAccess where
  access_type : String
  path : String
deriving DecidableEq

/-- Modelled from the spec: a generic permission category — `enabled` flag plus
a set of values (folder-access list, attribute list, endpoint list or
addon-name set).  Default: disabled, empty. -/
structure GCat (α : Type) where
  enabled : Bool := false
  vals : Finset α := ∅
deriving DecidableEq

/-- Modelled from the spec: the `project_settings` category — `enabled`,
addon-name set, and the `anatomy_update` boolean flag.  Default: disabled,
empty, flag off. -/
structure PCat where
  enabled : Bool := false
  addons : Finset String := ∅
  anatomy_update : Bool := false
deriving DecidableEq

/-- Modelled from the spec: the `Permissions` value type with its fixed set of
categories, mirroring the field names iterated by `AccessGroups.combine`:
`studio_settings`, `project_settings`, the four folder-access categories
`create`/`read`/`update`/`delete`, `attrib_read`, `attrib_write` and
`endpoints`.  `Permissions()` (the default) has every category disabled. -/
structure Permissions where
  studio_settings : GCat String := {}
  project_settings : PCat := {}
  create : GCat FolderAccess := {}
  read : GCat FolderAccess := {}
  update : GCat FolderAccess := {}
  delete : GCat FolderAccess := {}
  attrib_read : GCat String := {}
  attrib_write : GCat String := {}
  endpoints : GCat String := {}
deriving DecidableEq

namespace Permissions

/-- The default `Permissions()` object: every category disabled. -/
def default : Permissions := {}

end Permissions

namespace AccessGroups

/-- The in-memory registry `AccessGroups.access_groups`:
a mapping from `(access_group_name, project_name)` to `Permissions`
(Python class-level dict), modelled as an association list. -/
abbrev Registry := List ((String × String) × Permissions)

/-- Dict lookup `cls.access_groups[(name, project_name)]` guarded by the
`in` membership test. -/
def regLookup (reg : Registry) (key : String × String) : Option Permissions :=
  List.lookup key reg

/-- Lines 65–70 of `access_groups.py`: prefer the `(name, project_name)` entry,
fall back to `(name, "_")`, otherwise the name is skipped (`continue`). -/
def resolveGroup (reg : Registry) (name project_name : String) :
    Option Permissions :=
  match regLookup reg (name, project_name) with
  | some g => some g
  | none => regLookup reg (name, "_")

/-- Lines 72–76: seeding the running result from the first resolved group:
`result = access_group.dict()`, and when `project_name != "_"` the
`studio_settings` key is popped, so `Permissions(**result)` reconstructs it
as the (disabled, empty) default. -/
def seed (project_name : String) (g : Permissions) : Permissions :=
  if project_name ≠ "_" then { g with studio_settings := {} } else g

/-- Lines 85–124 for one generic category: an incoming disabled category wipes
the running entry to bare disabled (`result[perm_name] = ⟨enabled, False⟩`, so
the value set reconstructs as empty); an already-disabled running entry is kept
untouched; otherwise the value sets are unioned. -/
def mergeGCat {α : Type} [DecidableEq α] (r g : GCat α) : GCat α :=
  if !g.enabled then { enabled := false, vals := ∅ }
  else if !r.enabled then r
  else { enabled := r.enabled, vals := r.vals ∪ g.vals }

/-- Same merge step for `project_settings`, which additionally ORs the
`anatomy_update` flag (lines 96–100). -/
def mergePCat (r g : PCat) : PCat :=
  if !g.enabled then { enabled := false, addons := ∅, anatomy_update := false }
  else if !r.enabled then r
  else { enabled := r.enabled, addons := r.addons ∪ g.addons,
         anatomy_update := r.anatomy_update || g.anatomy_update }

/-- Lines 78–124: merging one further resolved group into the running result,
category by category.  When `project_name != "_"`, the `studio_settings`
category of the incoming group is skipped entirely (lines 79–83). -/
def mergeStep (project_name : String) (r g : Permissions) : Permissions :=
  { studio_settings :=
      if project_name ≠ "_" then r.studio_settings
      else mergeGCat r.studio_settings g.studio_settings
    project_settings := mergePCat r.project_settings g.project_settings
    create := mergeGCat r.create g.create
    read := mergeGCat r.read g.read
    update := mergeGCat r.update g.update
    delete := mergeGCat r.delete g.delete
    attrib_read := mergeGCat r.attrib_read g.attrib_read
    attrib_write := mergeGCat r.attrib_write g.attrib_write
    endpoints := mergeGCat r.endpoints g.endpoints }

/-- The loop body of `combine` (lines 64–124): running result is `None` until
the first group resolves; unresolved names are skipped. -/
def combineStep (reg : Registry) (project_name : String)
    (st : Option Permissions) (name : String) : Option Permissions :=
  match resolveGroup reg name project_name with
  | none => st
  | some g =>
    match st with
    | none => some (seed project_name g)
    | some r => some (mergeStep project_name r g)

/-- `AccessGroups.combine` (lines 52–128): fold the loop body over the group
names; `if not result: return Permissions()` returns the all-disabled default
when no group resolved. -/
def combine (reg : Registry) (access_group_names : List String)
    (project_name : String := "_") : Permissions :=
  (access_group_names.foldl (combineStep reg project_name) none).getD
    Permissions.default

/-- The sublist of group names that actually resolve, in order, replaced by
their permission sets. -/
def resolved (reg : Registry) (project_name : String)
    (names : List String) : List Permissions :=
  names.filterMap (fun n => resolveGroup reg n project_name)

end AccessGroups

/-- The closed enumeration of permission-category names, as iterated by
`for perm_name, value in access_group`. -/
inductive Category
  | studio_settings | project_settings | create | read | update | delete
  | attrib_read | attrib_write | endpoints
deriving DecidableEq

/-- The `enabled` flag of the given category of a `Permissions` value. -/
def Permissions.enabledOf (p : Permissions) : Category → Bool
  | .studio_settings => p.studio_settings.enabled
  | .project_settings => p.project_settings.enabled
  | .create => p.create.enabled
  | .read => p.read.enabled
  | .update => p.update.enabled
  | .delete => p.delete.enabled
  | .attrib_read => p.attrib_read.enabled
  | .attrib_write => p.attrib_write.enabled
  | .endpoints => p.endpoints.enabled

namespace AccessGroups

/-- Whether the merge loop skips category `c` at scope `p`
(only `studio_settings` at a non-wildcard project scope). -/
def skipCat (p : String) (c : Category) : Bool :=
  (c == .studio_settings) && (p != "_")

/-- Erase the `studio_settings` category of a permission set (used to express
"two permission sets agree outside studio settings"). -/
def scrubStudio (g : Permissions) : Permissions :=
  { g with studio_settings := {} }

/-- Two registries with the same keys whose permission values agree on every
category other than `studio_settings`. -/
def RegMatchesExceptStudio (r₁ r₂ : Registry) : Prop :=
  List.Forall₂
    (fun a b => a.1 = b.1 ∧ scrubStudio a.2 = scrubStudio b.2) r₁ r₂

end AccessGroups

/-- Example group carrying a non-empty enabled `studio_settings` category. -/
def permStudioX : Permissions :=
  { studio_settings := { enabled := true, vals := {"addonA"} },
    create := { enabled := true, vals := ∅ } }

/-- The same group with different (disabled, different-addons)
`studio_settings` content. -/
def permStudioY : Permissions :=
  { studio_settings := { enabled := false, vals := {"other"} },
    create := { enabled := true, vals := ∅ } }

/-- Registry for the C2 witness, first variant. -/
def wReg2a : AccessGroups.Registry := [(("A", "_"), permStudioX)]

/-- Registry for the C2 witness, second variant. -/
def wReg2b : AccessGroups.Registry := [(("A", "_"), permStudioY)]

/-- Example access group: `create` enabled with one folder-access entry,
everything else default. -/
def permCreateOn : Permissions :=
  { create := { enabled := true,
                vals := { { access_type := "read", path := "assets" } } } }

/-- Example access group: `create` explicitly disabled, but still carrying a
folder-access entry in its stored value list. -/
def permCreateOff : Permissions :=
  { create := { enabled := false,
                vals := { { access_type := "write", path := "top" } } } }

/-- A small registry holding the two example groups at studio scope. -/
def wReg : AccessGroups.Registry :=
  [(("A", "_"), permCreateOn), (("B", "_"), permCreateOff)]

namespace AccessGroups

/-- `add_access_group` (lines 44–49): dict assignment
`cls.access_groups[(name, project_name)] = permissions` — replace the entry
if the key is present (keeping its position), append otherwise. -/
def regInsert (reg : Registry) (key : String × String)
    (v : Permissions) : Registry :=
  match reg with
  | [] => [(key, v)]
  | (k, w) :: t =>
    if k = key then (key, v) :: t else (k, w) :: regInsert t key v

/-- The mapping obtained by inserting the given rows, in load order, into a
fresh empty dict. -/
def buildRegistry (rows : List ((String × String) × Permissions)) : Registry :=
  rows.foldl (fun reg row => regInsert reg row.1 row.2) []

/-- The registry states observable by a concurrent reader while `load`
(lines 20–42) runs.  `load` first rebinds `cls.access_groups` to a fresh
empty dict (line 22; immediately visible to readers) and then inserts the
fetched rows one at a time into that same, already published, dict; the
`async for` rows arrive across await suspension points, so a reader scheduled
at any suspension point observes the prefix inserted so far: the pre-load
mapping (before line 22 runs) or the partial mapping after the first `k`
inserts for any `k`. -/
def loadStates (pre : Registry)
    (rows : List ((String × String) × Permissions)) : List Registry :=
  pre :: (List.range (rows.length + 1)).map
    (fun k => buildRegistry (rows.take k))

end AccessGroups

/-- Concrete rows fetched by a `load` run, for the C9 counterexample. -/
def loadRows : List ((String × String) × Permissions) :=
  [(("A", "_"), permCreateOn), (("B", "_"), permCreateOff)]

/-!
Embedding of the bundle-resolution phase of `get_all_settings`
(`src/api/settings/settings.py`, lines 76–152).  The Postgres tables
(`projects`, `bundles`) and the `AddonLibrary` are collaborators modelled
from the spec (§6): `fetch_project_bundle_override`, `fetch_bundle`,
`fetch_flagged_bundle` and the per-addon
`project_can_override_addon_version` capability flag.
-/
/-- One row of the `bundles` table, as selected by the queries of
`get_all_settings`: name, the production/staging flags and the
`data->'addons'` mapping (addon name → nullable version). -/
structure BundleRecord where
  name : String
  is_production : Bool
  is_staging : Bool
  addons : List (String × Option String)
deriving DecidableEq

/-- Modelled from the spec: the database state read by `get_all_settings` —
the project directory with each project's per-variant bundle override mapping
(`data->'bundle'`), and the bundle store. -/
structure SettingsDB where
  projects : List (String × List (String × String))
  bundles : List BundleRecord
deriving DecidableEq

/-- Modelled from the spec: the addon catalogue (`AddonLibrary.get`) as far as
the inheritance step consults it — for each installed addon name, its
`project_can_override_addon_version` capability flag; an absent name means the
addon definition is not installed. -/
abbrev AddonLibraryDefs := List (String × Bool)

/-- The `NotFoundException` errors raised by `get_all_settings`'s
bundle-resolution phase. -/
inductive ApiError
  | notFound (detail : String)
deriving DecidableEq

/-- The output of the bundle-resolution phase: the effective bundle name, the
effective addon-version map, and the list of addons inherited from the studio
bundle. -/
structure ResolvedBundle where
  bundle_name : String
  addons : List (String × Option String)
  inherited_addons : List String
deriving DecidableEq

/-- `SELECT ... FROM bundles WHERE name = $1` — first matching row. -/
def bundleByName (db : SettingsDB) (n : String) : Option BundleRecord :=
  db.bundles.find? (fun b => b.name == n)

/-- `SELECT ... FROM bundles WHERE is_{variant} IS TRUE` — first matching
row (only ever issued with variant "production" or "staging"). -/
def flaggedBundle (db : SettingsDB) (variant : String) : Option BundleRecord :=
  db.bundles.find?
    (fun b => if variant = "production" then b.is_production else b.is_staging)

/-- Python dict assignment `addons[addon_name] = addon_version`: replace the
entry in place if present, append otherwise. -/
def setAddon (addons : List (String × Option String)) (name : String)
    (v : Option String) : List (String × Option String) :=
  match addons with
  | [] => [(name, v)]
  | (k, w) :: t =>
    if k = name then (name, v) :: t else (k, w) :: setAddon t name v

/-- One iteration of the inheritance loop (lines 141–152): an addon whose
definition is not installed is skipped; one whose definition allows project
override is skipped; otherwise the studio version is forced into the addon
map and the name recorded in `inherited_addons`. -/
def inheritStep (lib : AddonLibraryDefs)
    (st : List (String × Option String) × List String)
    (entry : String × Option String) :
    List (String × Option String) × List String :=
  match lib.lookup entry.1 with
  | none => st
  | some canOverride =>
    if canOverride then st
    else (setAddon st.1 entry.1 entry.2, st.2 ++ [entry.1])

/-- Lines 76–152 of `get_all_settings`: determine the effective bundle for
`(project_name, bundle_name, variant)`, including the project bundle override
and the studio-bundle inheritance step. -/
def resolveBundle (db : SettingsDB) (lib : AddonLibraryDefs)
    (project_name : Option String) (bundle_name : Option String)
    (variant : String) : Except ApiError ResolvedBundle :=
  let step1 : Except ApiError (Option String × Bool) :=
    match project_name, bundle_name with
    | some p, none =>
      if variant = "production" ∨ variant = "staging" then
        match db.projects.lookup p with
        | none => .error (.notFound "Project not found")
        | some ovrs =>
          match ovrs.lookup variant with
          | some b => .ok (some b, true)
          | none => .ok (none, false)
      else .ok (none, false)
    | _, _ => .ok (bundle_name, false)
  match step1 with
  | .error e => .error e
  | .ok (bn, has_project_bundle_override) =>
    let brow : Option BundleRecord :=
      if variant ≠ "production" ∧ variant ≠ "staging" then
        bundleByName db variant
      else
        match bn with
        | none => flaggedBundle db variant
        | some n => bundleByName db n
    match brow with
    | none => .error (.notFound "Bundle not found")
    | some b =>
      if has_project_bundle_override then
        match flaggedBundle db variant with
        | none =>
          .error (.notFound ("Unable to load project bundle. Studio "
            ++ variant ++ " bundle is not set"))
        | some srow =>
          let st := srow.addons.foldl (inheritStep lib) (b.addons, [])
          .ok ⟨b.name, st.1, st.2⟩
      else .ok ⟨b.name, b.addons, []⟩

/-!
Embedding of the settings override resolution
(`src/openpype/addons/addon.py`, `get_studio_settings` /
`get_project_settings`).  The settings documents and the deep-merge
`apply_overrides` (imported there from `openpype.settings`, not part of the
provided sources) are modelled from the spec (§3/§4.4/§9): a generic
recursive value type — scalar/sequence leaves and nested mappings — with a
pure recursive merge that replaces leaf values and merges nested mapping
keys recursively.
-/
/-- Modelled from the spec: a settings document — scalar/array leaf values
(kept opaque) or a nested mapping of keys to documents. -/
inductive Doc
  | leaf (s : String)
  | obj (fields : List (String × Doc))

mutual

/-- Modelled from the spec: `apply_overrides(settings, overrides)` — deep
merge of an override document over a base document: two mappings are merged
key by key, any other override value replaces the base value wholesale. -/
def apply_overrides (settings overrides : Doc) : Doc :=
  match settings, overrides with
  | .obj a, .obj b => .obj (applyFields a b)
  | _, o => o
termination_by (sizeOf overrides, 0, 0)

/-- Apply each override field in turn to the base field list. -/
def applyFields (a : List (String × Doc)) :
    (b : List (String × Doc)) → List (String × Doc)
  | [] => a
  | (k, w) :: rest => applyFields (setField a k w) rest
termination_by b => (sizeOf b, 2, 0)

/-- Set one override key: deep-merge into the first entry with that key
(keeping its position); append the entry when the key is new. -/
def setField (a : List (String × Doc)) (k : String) (w : Doc) :
    List (String × Doc) :=
  match a with
  | [] => [(k, w)]
  | (k₀, v) :: t =>
    if k₀ = k then (k₀, apply_overrides v w) :: t
    else (k₀, v) :: setField t k w
termination_by (sizeOf w, 1, sizeOf a)

end

mutual

/-- Well-formedness of a settings document as produced from JSON/pydantic
dicts: every mapping in it has pairwise-distinct keys. -/
def Doc.wf : Doc → Bool
  | .leaf _ => true
  | .obj fs => decide ((fs.map Prod.fst).Nodup) && Doc.fieldsWf fs

/-- All field values of a mapping are well formed. -/
def Doc.fieldsWf : List (String × Doc) → Bool
  | [] => true
  | (_, v) :: t => v.wf && Doc.fieldsWf t

end

/-- Mapping the override values over the base entries: the proof-side closed
form of `applyFields` on the base's own keys. -/
def mapMerge (a b : List (String × Doc)) : List (String × Doc) :=
  a.map (fun kv =>
    match b.lookup kv.1 with
    | some w => (kv.1, apply_overrides kv.2 w)
    | none => kv)

/-- The override entries whose keys are new to the base: the proof-side
closed form of the entries `applyFields` appends. -/
def newEntries (a b : List (String × Doc)) : List (String × Doc) :=
  b.filter (fun kv => (a.lookup kv.1).isNone)

namespace BaseServerAddon

/-- `BaseServerAddon.get_studio_settings` (`addon.py` lines 150–163): the
default settings document (None when the addon has no settings model), with
the studio override document merged on top when it is non-empty
(`if overrides:`).  The override documents fetched from the database are
dicts, so they are passed as field lists; an absent row is the empty dict. -/
def get_studio_settings (defaults : Option Doc)
    (studio_overrides : List (String × Doc)) : Option Doc :=
  match defaults with
  | none => none
  | some settings =>
    some (if studio_overrides.isEmpty then settings
          else apply_overrides settings (.obj studio_overrides))

/-- `BaseServerAddon.get_project_settings` (`addon.py` lines 165–180): start
from `get_studio_settings` (which already merged the studio overrides), merge
the studio overrides again when non-empty, then the project overrides when
non-empty. -/
def get_project_settings (defaults : Option Doc)
    (studio_overrides project_overrides : List (String × Doc)) :
    Option Doc :=
  match get_studio_settings defaults studio_overrides with
  | none => none
  | some settings =>
    let s₁ := if studio_overrides.isEmpty then settings
              else apply_overrides settings (.obj studio_overrides)
    some (if project_overrides.isEmpty then s₁
          else apply_overrides s₁ (.obj project_overrides))

end BaseServerAddon

/-!
Embedding of the per-addon settings loop of `get_all_settings`
(`src/api/settings/settings.py`, lines 154–286).  The addon objects
(`AddonLibrary.addon`), their settings models and the awaited settings
getters are collaborators; their observable outcomes are modelled from the
spec as oracles passed in: the addon lookup (None when
`AddonLibrary.addon` raises NotFound), the `AddonLibrary.is_broken` reason,
and the outcome of the settings-loading `try` block (an exception, or the
loaded site settings and settings object).
-/
/-- What the loop reads off a resolved addon object: its title ("" when
unset), its settings model (None when absent) as a list of fields with their
scope lists (the `["studio", "project"]` default for a field without a scope
tag is applied when building the list), and whether a site settings model
exists. -/
structure AddonInfo where
  title : String
  settingsModelFields : Option (List (String × List String))
  hasSiteSettingsModel : Bool
deriving DecidableEq

/-- The settings object returned by the awaited settings getter: its
override-presence flags and its serialized dict. -/
structure LoadedSettings where
  hasStudioOverrides : Bool
  hasProjectOverrides : Bool
  hasSiteOverrides : Bool
  doc : Doc

/-- Outcome of the settings-loading `try` block (lines 205–227): any raised
exception (with its traceback text), or the loaded site settings and the
settings object (None when the addon has no settings at all). -/
inductive LoadAttempt
  | failure (err : String)
  | success (siteSettings : Option Doc) (settings : Option LoadedSettings)

/-- `AddonSettingsItemModel` (lines 17–44), with the dict-valued fields as
documents. -/
structure AddonSettingsItemModel where
  name : String
  version : String
  title : String
  has_settings : Bool := false
  has_project_settings : Bool := false
  has_project_site_settings : Bool := false
  has_site_settings : Bool := false
  has_studio_overrides : Option Bool := none
  has_project_overrides : Option Bool := none
  has_project_site_overrides : Option Bool := none
  settings : Doc := .obj []
  site_settings : Option Doc := none
  is_broken : Bool := false
  reason : Option (List (String × String)) := none

/-- `AllSettingsResponseModel` (lines 47–54). -/
structure AllSettingsResponseModel where
  bundle_name : String
  addons : List AddonSettingsItemModel
  inherited_addons : List String

/-- Lines 189–198: which scopes the addon's settings model covers. -/
def scopeFlags (fields : Option (List (String × List String))) :
    Bool × Bool × Bool :=
  match fields with
  | none => (false, false, false)
  | some fs =>
    (fs.any (fun f => "studio" ∈ f.2),
     fs.any (fun f => "project" ∈ f.2),
     fs.any (fun f => "site" ∈ f.2))

/-- One iteration of the addon loop (lines 155–273), for an addon with a
non-null version: the `AddonLibrary.addon` NotFound path (lines 159–180),
the settings-loading failure path (lines 229–245), and the normal path
(lines 249–273). -/
def entryFor (addonLookup : String → String → Option AddonInfo)
    (isBroken : String → String → Option (List (String × String)))
    (load : String → String → LoadAttempt) (summary : Bool)
    (name version : String) : AddonSettingsItemModel :=
  match addonLookup name version with
  | none =>
    { name := name, title := name, version := version,
      settings := .obj [], site_settings := none,
      is_broken := (isBroken name version).isSome,
      reason := isBroken name version }
  | some info =>
    match load name version with
    | .failure err =>
      { name := name, title := name, version := version,
        settings := .obj [], site_settings := none,
        is_broken := true,
        reason := some [("error", "Unable to load settings"),
                        ("traceback", err)] }
    | .success siteSettings settings =>
      { name := name,
        title := if info.title ≠ "" then info.title else name,
        version := version,
        has_settings := (scopeFlags info.settingsModelFields).1,
        has_project_settings := (scopeFlags info.settingsModelFields).2.1,
        has_project_site_settings := (scopeFlags info.settingsModelFields).2.2,
        has_site_settings := info.hasSiteSettingsModel,
        has_studio_overrides := settings.map (·.hasStudioOverrides),
        has_project_overrides := settings.map (·.hasProjectOverrides),
        has_project_site_overrides := settings.map (·.hasSiteOverrides),
        settings := match settings with
          | some s => if summary then .obj [] else s.doc
          | none => .obj [],
        site_settings := siteSettings,
        is_broken := false, reason := none }

/-- The addon loop over the bundle's addon map, skipping null versions
(lines 156–157). -/
def buildEntries (addonLookup : String → String → Option AddonInfo)
    (isBroken : String → String → Option (List (String × String)))
    (load : String → String → LoadAttempt) (summary : Bool)
    (addons : List (String × Option String)) :
    List AddonSettingsItemModel :=
  addons.filterMap (fun av =>
    match av.2 with
    | none => none
    | some version =>
      some (entryFor addonLookup isBroken load summary av.1 version))

/-- Line 275: `addon_result.sort(key=lambda x: x.title.lower())`. -/
def sortEntries (l : List AddonSettingsItemModel) :
    List AddonSettingsItemModel :=
  l.mergeSort (fun x y => x.title.toLower ≤ y.title.toLower)

/-- `get_all_settings` itself: bundle resolution (lines 76–152) followed by
the per-addon settings loop and the final response (lines 154–286). -/
def get_all_settings (db : SettingsDB) (lib : AddonLibraryDefs)
    (addonLookup : String → String → Option AddonInfo)
    (isBroken : String → String → Option (List (String × String)))
    (load : String → String → LoadAttempt)
    (project_name bundle_name : Option String) (variant : String)
    (summary : Bool) : Except ApiError AllSettingsResponseModel :=
  match resolveBundle db lib project_name bundle_name variant with
  | .error e => .error e
  | .ok rb =>
    .ok ⟨rb.bundle_name,
      sortEntries (buildEntries addonLookup isBroken load summary rb.addons),
      rb.inherited_addons⟩

/-- Addon info used by the C6 witness: no explicit title, a settings model
with one studio/project field, no site settings model. -/
def wAddonInfo : AddonInfo :=
  { title := "", settingsModelFields := some [("f", ["studio", "project"])],
    hasSiteSettingsModel := false }

/-- Addon lookup oracle for the C6 witness: every addon version resolves. -/
def wAddonLookup : String → String → Option AddonInfo :=
  fun _ _ => some wAddonInfo

/-- `AddonLibrary.is_broken` oracle for the C6 witness. -/
def wIsBroken : String → String → Option (List (String × String)) :=
  fun _ _ => none

/-- A successful settings load with no overrides, for the C6 witness. -/
def wLoadGood : LoadAttempt :=
  .success none (some
    { hasStudioOverrides := false
      hasProjectOverrides := false
      hasSiteOverrides := false
      doc := .obj [] })

/-- Settings-loading oracle for the C6 witness: loading the "bad" addon's
settings raises, every other addon loads fine. -/
def wLoad : String → String → LoadAttempt
  | "bad", _ => .failure "boom"
  | _, _ => wLoadGood

/-- Database for the C6 witness: one bundle with a healthy and a broken
addon. -/
def wdb6 : SettingsDB :=
  { projects := [],
    bundles := [{ name := "bundl", is_production := true,
                  is_staging := false,
                  addons := [("good", some "1.0.0"),
                             ("bad", some "1.0.0")] }] }

/-- The project bundle "B" used in the bundle-resolution witnesses. -/
def wBundleB : BundleRecord :=
  { name := "B", is_production := false, is_staging := false,
    addons := [("foo", some "1.0.0"), ("bar", some "2.0.0")] }

/-- The studio production bundle "S" used in the bundle-resolution
witnesses: "foo" disallows project override, "baz" allows it, and "ghost" has
no installed definition. -/
def wBundleS : BundleRecord :=
  { name := "S", is_production := true, is_staging := false,
    addons := [("foo", some "9.9.9"), ("baz", some "3.0.0"),
               ("ghost", some "0.1.0")] }

/-- Database for the bundle-resolution witnesses: project "proj1" overrides
its production and staging bundles to "B"; bundles "B" and "S" exist; only
"S" is flagged as the studio production bundle and no bundle is flagged for
staging. -/
def wdb : SettingsDB :=
  { projects := [("proj1", [("production", "B"), ("staging", "B")])],
    bundles := [wBundleB, wBundleS] }

/-- Addon library for the bundle-resolution witnesses. -/
def wlib : AddonLibraryDefs := [("foo", false), ("bar", true), ("baz", true)]

namespace AccessGroups

/-- Cumulative union of the value sets of a list of categories. -/
def valsUnion {α : Type} [DecidableEq α] (l : List (GCat α))
    (init : Finset α) : Finset α :=
  l.foldl (fun s g => s ∪ g.vals) init

/-- Cumulative union of the addon sets of a list of `project_settings`
categories. -/
def addonsUnion (l : List PCat) (init : Finset String) : Finset String :=
  l.foldl (fun s g => s ∪ g.addons) init

/-- Cumulative OR of the `anatomy_update` flags. -/
def anatomyOr (l : List PCat) (init : Bool) : Bool :=
  l.foldl (fun b g => b || g.anatomy_update) init

end AccessGroups

namespace AccessGroups

theorem foldl_combineStep_some (reg : Registry) (p : String)
    (names : List String) :
    ∀ r : Permissions,
      names.foldl (combineStep reg p) (some r) =
        some ((resolved reg p names).foldl (mergeStep p) r) := by
  induction names with
  | nil => intro r; rfl
  | cons n t ih =>
    intro r
    simp only [List.foldl_cons, resolved, List.filterMap_cons]
    cases h : resolveGroup reg n p with
    | none => simpa [combineStep, h, resolved] using ih r
    | some g => simpa [combineStep, h, resolved] using ih (mergeStep p r g)

theorem foldl_combineStep_none (reg : Registry) (p : String)
    (names : List String) :
    names.foldl (combineStep reg p) none =
      match resolved reg p names with
      | [] => none
      | h :: t => some (t.foldl (mergeStep p) (seed p h)) := by
  induction names with
  | nil => rfl
  | cons n t ih =>
    simp only [List.foldl_cons, resolved, List.filterMap_cons]
    cases h : resolveGroup reg n p with
    | none => simpa [combineStep, h, resolved] using ih
    | some g =>
      simp [combineStep, h, resolved, foldl_combineStep_some]

/-- Structural form of `combine`: fold of `mergeStep` over the resolved
groups, seeded from the first one. -/
theorem combine_eq (reg : Registry) (names : List String) (p : String) :
    combine reg names p =
      match resolved reg p names with
      | [] => Permissions.default
      | h :: t => t.foldl (mergeStep p) (seed p h) := by
  unfold combine
  rw [foldl_combineStep_none]
  cases resolved reg p names <;> rfl

theorem mergeGCat_enabled {α : Type} [DecidableEq α] (r g : GCat α) :
    (mergeGCat r g).enabled = (r.enabled && g.enabled) := by
  unfold mergeGCat
  cases hg : g.enabled <;> cases hr : r.enabled <;> simp [hg, hr]

theorem mergePCat_enabled (r g : PCat) :
    (mergePCat r g).enabled = (r.enabled && g.enabled) := by
  unfold mergePCat
  cases hg : g.enabled <;> cases hr : r.enabled <;> simp [hg, hr]

theorem mergeStep_enabledOf (p : String) (r g : Permissions) (c : Category) :
    (mergeStep p r g).enabledOf c =
      if skipCat p c then r.enabledOf c
      else (r.enabledOf c && g.enabledOf c) := by
  cases c <;>
    simp [mergeStep, Permissions.enabledOf, skipCat, mergeGCat_enabled,
      mergePCat_enabled] <;>
    by_cases hp : p = "_" <;> simp [hp, mergeGCat_enabled]

theorem seed_enabledOf (p : String) (g : Permissions) (c : Category) :
    (seed p g).enabledOf c =
      if skipCat p c then false else g.enabledOf c := by
  cases c <;>
    simp [seed, Permissions.enabledOf, skipCat] <;>
    by_cases hp : p = "_" <;> simp [hp]

theorem foldl_mergeStep_enabledOf (p : String) (c : Category)
    (l : List Permissions) :
    ∀ r : Permissions,
      (l.foldl (mergeStep p) r).enabledOf c =
        (r.enabledOf c &&
          (skipCat p c || l.all (fun g => g.enabledOf c))) := by
  induction l with
  | nil => intro r; cases h : skipCat p c <;> simp [h]
  | cons g t ih =>
    intro r
    rw [List.foldl_cons, ih, mergeStep_enabledOf]
    cases h : skipCat p c with
    | false => simp [h, Bool.and_assoc]
    | true => simp [h]

/-- The `enabled` flag of each category of a `combine` result: true exactly
when at least one group resolved, the category is not the skipped
studio-settings-at-project-scope one, and every resolved group has it
enabled. -/
theorem combine_enabledOf (reg : Registry) (names : List String)
    (p : String) (c : Category) :
    (combine reg names p).enabledOf c =
      (!(resolved reg p names).isEmpty && !(skipCat p c) &&
        (resolved reg p names).all (fun g => g.enabledOf c)) := by
  rw [combine_eq]
  cases hres : resolved reg p names with
  | nil =>
    cases c <;> simp [Permissions.default, Permissions.enabledOf]
  | cons h t =>
    simp only [List.isEmpty_cons]
    rw [foldl_mergeStep_enabledOf, seed_enabledOf]
    cases hs : skipCat p c with
    | false => simp [hs]
    | true => simp [hs]

theorem regLookup_scrub {r₁ r₂ : Registry}
    (h : RegMatchesExceptStudio r₁ r₂) (k : String × String) :
    (regLookup r₁ k = none ∧ regLookup r₂ k = none) ∨
      ∃ g₁ g₂, regLookup r₁ k = some g₁ ∧ regLookup r₂ k = some g₂ ∧
        scrubStudio g₁ = scrubStudio g₂ := by
  induction h with
  | nil => exact Or.inl ⟨rfl, rfl⟩
  | cons hab htail ih =>
    rename_i a b l₁ l₂
    obtain ⟨hk, hv⟩ := hab
    by_cases hka : k = a.1
    · right
      refine ⟨a.2, b.2, ?_, ?_, hv⟩
      · simp [regLookup, List.lookup, hka]
      · simp [regLookup, List.lookup, hk ▸ hka]
    · have hbeq : (k == a.1) = false := beq_eq_false_iff_ne.mpr hka
      have h₁ : regLookup (a :: l₁) k = regLookup l₁ k := by
        simp [regLookup, List.lookup, hbeq]
      have hbeq' : (k == b.1) = false :=
        beq_eq_false_iff_ne.mpr (hk ▸ hka)
      have h₂ : regLookup (b :: l₂) k = regLookup l₂ k := by
        simp [regLookup, List.lookup, hbeq']
      rw [h₁, h₂]
      exact ih

theorem resolveGroup_scrub {r₁ r₂ : Registry}
    (h : RegMatchesExceptStudio r₁ r₂) (n p : String) :
    (resolveGroup r₁ n p = none ∧ resolveGroup r₂ n p = none) ∨
      ∃ g₁ g₂, resolveGroup r₁ n p = some g₁ ∧
        resolveGroup r₂ n p = some g₂ ∧ scrubStudio g₁ = scrubStudio g₂ := by
  unfold resolveGroup
  rcases regLookup_scrub h (n, p) with ⟨h₁, h₂⟩ | ⟨g₁, g₂, h₁, h₂, hs⟩
  · rw [h₁, h₂]
    rcases regLookup_scrub h (n, "_") with ⟨m₁, m₂⟩ | ⟨g₁, g₂, m₁, m₂, ms⟩
    · exact Or.inl ⟨m₁, m₂⟩
    · exact Or.inr ⟨g₁, g₂, m₁, m₂, ms⟩
  · rw [h₁, h₂]
    exact Or.inr ⟨g₁, g₂, rfl, rfl, hs⟩

theorem seed_scrub {p : String} (hp : p ≠ "_") (g : Permissions) :
    seed p g = scrubStudio g := by
  simp [seed, hp, scrubStudio]

theorem mergeStep_scrub {p : String} (hp : p ≠ "_") (r : Permissions)
    {g₁ g₂ : Permissions} (hs : scrubStudio g₁ = scrubStudio g₂) :
    mergeStep p r g₁ = mergeStep p r g₂ := by
  have h1 := congrArg Permissions.project_settings hs
  have h2 := congrArg Permissions.create hs
  have h3 := congrArg Permissions.read hs
  have h4 := congrArg Permissions.update hs
  have h5 := congrArg Permissions.delete hs
  have h6 := congrArg Permissions.attrib_read hs
  have h7 := congrArg Permissions.attrib_write hs
  have h8 := congrArg Permissions.endpoints hs
  simp only [scrubStudio] at h1 h2 h3 h4 h5 h6 h7 h8
  simp [mergeStep, hp, h1, h2, h3, h4, h5, h6, h7, h8]

theorem resolved_scrub {r₁ r₂ : Registry}
    (h : RegMatchesExceptStudio r₁ r₂) (p : String) (names : List String) :
    List.Forall₂ (fun g₁ g₂ => scrubStudio g₁ = scrubStudio g₂)
      (resolved r₁ p names) (resolved r₂ p names) := by
  induction names with
  | nil => exact List.Forall₂.nil
  | cons n t ih =>
    simp only [resolved, List.filterMap_cons]
    rcases resolveGroup_scrub h n p with ⟨h₁, h₂⟩ | ⟨g₁, g₂, h₁, h₂, hs⟩
    · rw [h₁, h₂]; exact ih
    · rw [h₁, h₂]; exact List.Forall₂.cons hs ih

theorem foldl_mergeStep_scrub {p : String} (hp : p ≠ "_")
    {l₁ l₂ : List Permissions}
    (h : List.Forall₂ (fun g₁ g₂ => scrubStudio g₁ = scrubStudio g₂) l₁ l₂) :
    ∀ r : Permissions,
      l₁.foldl (mergeStep p) r = l₂.foldl (mergeStep p) r := by
  induction h with
  | nil => intro r; rfl
  | cons hab htail ih =>
    intro r
    simp only [List.foldl_cons]
    rw [mergeStep_scrub hp r hab]
    exact ih _

theorem foldl_mergeStep_studio {p : String} (hp : p ≠ "_")
    (l : List Permissions) :
    ∀ r : Permissions,
      (l.foldl (mergeStep p) r).studio_settings = r.studio_settings := by
  induction l with
  | nil => intro r; rfl
  | cons g t ih =>
    intro r
    rw [List.foldl_cons, ih]
    simp [mergeStep, hp]

/-- At a non-wildcard project scope, `combine` always returns the default
(disabled, empty) `studio_settings` category. -/
theorem combine_studio_default {p : String} (hp : p ≠ "_")
    (reg : Registry) (names : List String) :
    (combine reg names p).studio_settings = ({} : GCat String) := by
  rw [combine_eq]
  cases resolved reg p names with
  | nil => rfl
  | cons h t =>
    rw [foldl_mergeStep_studio hp, seed_scrub hp]
    rfl

end AccessGroups

/-- C2: at a non-wildcard project scope the merged result carries the default
(empty, disabled) `studio_settings` category, and the result does not depend
on the `studio_settings` content of any stored group: two registries that
agree outside studio settings combine identically. -/
theorem combine_project_scope_studio_settings
    (reg₁ reg₂ : AccessGroups.Registry) (names : List String) (p : String)
    (hp : p ≠ "_")
    (hreg : AccessGroups.RegMatchesExceptStudio reg₁ reg₂) :
    (AccessGroups.combine reg₁ names p).studio_settings = ({} : GCat String)
    ∧ AccessGroups.combine reg₁ names p = AccessGroups.combine reg₂ names p := by
  constructor
  · rw [AccessGroups.combine_eq]
    cases AccessGroups.resolved reg₁ p names with
    | nil => rfl
    | cons h t =>
      rw [AccessGroups.foldl_mergeStep_studio hp, AccessGroups.seed_scrub hp]
      rfl
  · rw [AccessGroups.combine_eq, AccessGroups.combine_eq]
    have hres := AccessGroups.resolved_scrub hreg p names
    revert hres
    generalize AccessGroups.resolved reg₁ p names = L₁
    generalize AccessGroups.resolved reg₂ p names = L₂
    intro hres
    cases hres with
    | nil => rfl
    | cons hab htail =>
      show List.foldl (AccessGroups.mergeStep p) (AccessGroups.seed p _) _ =
        List.foldl (AccessGroups.mergeStep p) (AccessGroups.seed p _) _
      rw [AccessGroups.seed_scrub hp, AccessGroups.seed_scrub hp, hab]
      exact AccessGroups.foldl_mergeStep_scrub hp htail _

/-- C2 witness: at project scope "proj" the two studio-settings variants of
group "A" combine to the same result with empty studio settings. -/
theorem combine_project_scope_studio_settings_witness :
    ("proj" ≠ "_" ∧
      AccessGroups.RegMatchesExceptStudio wReg2a wReg2b) ∧
    ((AccessGroups.combine wReg2a ["A"] "proj").studio_settings =
        ({} : GCat String)
    ∧ AccessGroups.combine wReg2a ["A"] "proj" =
        AccessGroups.combine wReg2b ["A"] "proj") :=
  ⟨⟨by decide, List.Forall₂.cons ⟨rfl, by decide⟩ List.Forall₂.nil⟩,
    combine_project_scope_studio_settings wReg2a wReg2b ["A"] "proj"
      (by decide) (List.Forall₂.cons ⟨rfl, by decide⟩ List.Forall₂.nil)⟩

/-- C9 counterexample: with an empty pre-load mapping and two rows to load, a
reader scheduled between the two inserts observes a one-entry mapping that is
neither the pre-load mapping nor the complete post-load mapping, so `load` is
not an atomic replacement. -/
theorem load_not_atomic_counterexample :
    AccessGroups.buildRegistry (loadRows.take 1) ∈
      AccessGroups.loadStates [] loadRows
    ∧ AccessGroups.buildRegistry (loadRows.take 1) ≠ []
    ∧ AccessGroups.buildRegistry (loadRows.take 1) ≠
        AccessGroups.buildRegistry loadRows := by
  refine ⟨?_, ?_, ?_⟩
  · decide
  · decide
  · decide

/-- C9 amended: every mapping state observable while `load` runs is either the
pre-load mapping or the mapping built from a prefix of the loaded rows (the
empty dict published at the start of `load` included), and the complete
post-load mapping is among the observable states. -/
theorem loadStates_observable (pre : AccessGroups.Registry)
    (rows : List ((String × String) × Permissions)) :
    (∀ s ∈ AccessGroups.loadStates pre rows,
      s = pre ∨ ∃ k ≤ rows.length, s = AccessGroups.buildRegistry (rows.take k))
    ∧ AccessGroups.buildRegistry rows ∈ AccessGroups.loadStates pre rows := by
  constructor
  · intro s hs
    rcases List.mem_cons.mp hs with h | h
    · exact Or.inl h
    · right
      obtain ⟨k, hk, hs⟩ := List.mem_map.mp h
      exact ⟨k, Nat.lt_succ_iff.mp (List.mem_range.mp hk), hs.symm⟩
  · refine List.mem_cons.mpr (Or.inr (List.mem_map.mpr ⟨rows.length, ?_, ?_⟩))
    · exact List.mem_range.mpr (Nat.lt_succ_self _)
    · rw [List.take_length]

/-- C9 amended witness: the partially populated one-entry state seen between
the two inserts of `loadRows` is indeed a prefix state. -/
theorem loadStates_observable_witness :
    (AccessGroups.buildRegistry (loadRows.take 1) ∈
        AccessGroups.loadStates [] loadRows) ∧
    (AccessGroups.buildRegistry (loadRows.take 1) = [] ∨
      ∃ k ≤ loadRows.length,
        AccessGroups.buildRegistry (loadRows.take 1) =
          AccessGroups.buildRegistry (loadRows.take k)) :=
  ⟨by decide,
    (loadStates_observable [] loadRows).1 _ (by decide)⟩

theorem setAddon_lookup_self (a : List (String × Option String))
    (k : String) (v : Option String) :
    (setAddon a k v).lookup k = some v := by
  induction a with
  | nil => simp [setAddon, List.lookup]
  | cons e t ih =>
    obtain ⟨k₀, w⟩ := e
    by_cases h : k₀ = k
    · simp [setAddon, h, List.lookup]
    · have hbeq : (k == k₀) = false := beq_eq_false_iff_ne.mpr (Ne.symm h)
      simp [setAddon, h, List.lookup, hbeq, ih]

theorem setAddon_lookup_ne (a : List (String × Option String))
    (k k' : String) (v : Option String) (h : k' ≠ k) :
    (setAddon a k v).lookup k' = a.lookup k' := by
  induction a with
  | nil =>
    have hbeq : (k' == k) = false := beq_eq_false_iff_ne.mpr h
    simp [setAddon, List.lookup, hbeq]
  | cons e t ih =>
    obtain ⟨k₀, w⟩ := e
    by_cases h₀ : k₀ = k
    · have hbeq : (k' == k) = false := beq_eq_false_iff_ne.mpr h
      have hbeq₀ : (k' == k₀) = false :=
        beq_eq_false_iff_ne.mpr (h₀ ▸ h)
      simp [setAddon, h₀, List.lookup, hbeq, hbeq₀]
    · by_cases hk : k' = k₀
      · simp [setAddon, h₀, List.lookup, hk]
      · have hbeq : (k' == k₀) = false := beq_eq_false_iff_ne.mpr hk
        simp [setAddon, h₀, List.lookup, hbeq, ih]

/-- The inheritance fold leaves an addon name alone when every studio entry
with that name is skipped because its definition is not installed. -/
theorem inherit_fold_foo_untouched (lib : AddonLibraryDefs) (foo : String)
    (l : List (String × Option String)) :
    (∀ e ∈ l, e.1 = foo → lib.lookup foo = none) →
    ∀ a i, ((l.foldl (inheritStep lib) (a, i)).1.lookup foo = a.lookup foo)
      ∧ (foo ∈ (l.foldl (inheritStep lib) (a, i)).2 ↔ foo ∈ i) := by
  induction l with
  | nil => intro _ a i; exact ⟨rfl, Iff.rfl⟩
  | cons e t ih =>
    intro h a i
    obtain ⟨n, v⟩ := e
    have ht : ∀ e ∈ t, e.1 = foo → lib.lookup foo = none :=
      fun e he => h e (List.mem_cons_of_mem _ he)
    rw [List.foldl_cons]
    cases hn : lib.lookup n with
    | none => simpa [inheritStep, hn] using ih ht a i
    | some canOverride =>
      cases canOverride with
      | true => simpa [inheritStep, hn] using ih ht a i
      | false =>
        have hne : n ≠ foo := by
          intro hne
          have hnone := h (n, v) (List.mem_cons_self _ _) hne
          rw [hne, hnone] at hn
          exact Option.noConfusion hn
        have step : inheritStep lib (a, i) (n, v) =
            (setAddon a n v, i ++ [n]) := by
          simp [inheritStep, hn]
        rw [step]
        obtain ⟨h₁, h₂⟩ := ih ht (setAddon a n v) (i ++ [n])
        refine ⟨?_, ?_⟩
        · rw [h₁, setAddon_lookup_ne _ _ _ _ (Ne.symm hne)]
        · rw [h₂, List.mem_append]
          simp [Ne.symm hne]

/-- The inheritance fold forces the studio version of an addon whose
definition is installed and disallows project override, and records it as
inherited. -/
theorem inherit_fold_forces (lib : AddonLibraryDefs) (foo : String)
    (ver : Option String) (l : List (String × Option String)) :
    (foo, ver) ∈ l → (l.map Prod.fst).Nodup → lib.lookup foo = some false →
    ∀ a i, ((l.foldl (inheritStep lib) (a, i)).1.lookup foo = some ver)
      ∧ foo ∈ (l.foldl (inheritStep lib) (a, i)).2 := by
  induction l with
  | nil => intro hmem; exact absurd hmem (List.not_mem_nil _)
  | cons e t ih =>
    intro hmem hnodup hlib a i
    obtain ⟨n, v⟩ := e
    rw [List.map_cons, List.nodup_cons] at hnodup
    obtain ⟨hnot, hnd⟩ := hnodup
    rw [List.foldl_cons]
    rcases List.mem_cons.mp hmem with hhead | htail
    · have hn_eq : n = foo := by
        have := congrArg Prod.fst hhead
        simpa using this.symm
      have hv_eq : v = ver := by
        have := congrArg Prod.snd hhead
        simpa using this.symm
      have step : inheritStep lib (a, i) (n, v) =
          (setAddon a n v, i ++ [n]) := by
        simp [inheritStep, hn_eq, hlib]
      rw [step]
      have huntouched : ∀ e ∈ t, e.1 = foo → lib.lookup foo = none := by
        intro e he hef
        exact absurd (hef ▸ List.mem_map_of_mem Prod.fst he) (hn_eq ▸ hnot)
      obtain ⟨h₁, h₂⟩ :=
        inherit_fold_foo_untouched lib foo t huntouched
          (setAddon a n v) (i ++ [n])
      refine ⟨?_, ?_⟩
      · rw [h₁, hn_eq, hv_eq, setAddon_lookup_self]
      · rw [h₂, List.mem_append, hn_eq]
        simp
    · have h := ih htail hnd hlib (inheritStep lib (a, i) (n, v)).1
        (inheritStep lib (a, i) (n, v)).2
      simpa using h

/-- C3: with a per-variant project bundle override in effect, an addon of the
studio bundle whose installed definition has
`project_can_override_addon_version = False` is forced to the studio bundle's
version in the resolved addon map, and its name is recorded in
`inherited_addons`. -/
theorem bundle_inherit_non_overridable
    (db : SettingsDB) (lib : AddonLibraryDefs) (p variant B : String)
    (povrs : List (String × String)) (prec srec : BundleRecord)
    (foo : String) (ver : Option String)
    (hvar : variant = "production" ∨ variant = "staging")
    (hproj : db.projects.lookup p = some povrs)
    (hovr : povrs.lookup variant = some B)
    (hbundle : bundleByName db B = some prec)
    (hstudio : flaggedBundle db variant = some srec)
    (hfoo : (foo, ver) ∈ srec.addons)
    (hnodup : (srec.addons.map Prod.fst).Nodup)
    (hlib : lib.lookup foo = some false) :
    ∃ rb, resolveBundle db lib (some p) none variant = .ok rb
      ∧ rb.addons.lookup foo = some ver
      ∧ foo ∈ rb.inherited_addons := by
  have hne : ¬(variant ≠ "production" ∧ variant ≠ "staging") := by
    rcases hvar with h | h
    · exact fun hc => hc.1 h
    · exact fun hc => hc.2 h
  refine ⟨⟨prec.name,
      (srec.addons.foldl (inheritStep lib) (prec.addons, [])).1,
      (srec.addons.foldl (inheritStep lib) (prec.addons, [])).2⟩, ?_, ?_, ?_⟩
  · simp only [resolveBundle, hproj, hovr, if_pos hvar, if_neg hne,
      hbundle, hstudio]
    rw [if_pos trivial]
  · exact (inherit_fold_forces lib foo ver srec.addons hfoo hnodup hlib
      prec.addons []).1
  · exact (inherit_fold_forces lib foo ver srec.addons hfoo hnodup hlib
      prec.addons []).2

/-- C8: on the project-override path, when no studio bundle is flagged for
the variant, resolution fails with a `NotFoundException` whose detail says the
studio bundle for the variant is not set. -/
theorem bundle_override_no_studio
    (db : SettingsDB) (lib : AddonLibraryDefs) (p variant B : String)
    (povrs : List (String × String)) (prec : BundleRecord)
    (hvar : variant = "production" ∨ variant = "staging")
    (hproj : db.projects.lookup p = some povrs)
    (hovr : povrs.lookup variant = some B)
    (hbundle : bundleByName db B = some prec)
    (hstudio : flaggedBundle db variant = none) :
    resolveBundle db lib (some p) none variant =
      .error (.notFound ("Unable to load project bundle. Studio "
        ++ variant ++ " bundle is not set")) := by
  have hne : ¬(variant ≠ "production" ∧ variant ≠ "staging") := by
    rcases hvar with h | h
    · exact fun hc => hc.1 h
    · exact fun hc => hc.2 h
  simp only [resolveBundle, hproj, hovr, if_pos hvar, if_neg hne,
    hbundle, hstudio]
  rw [if_pos trivial]

/-- C10: on the project-override path, a studio-bundle addon whose definition
is absent from the addon library is skipped entirely: the resolved addon map
keeps whatever the project bundle had for it, and it is not recorded in
`inherited_addons`. -/
theorem bundle_skip_uninstalled
    (db : SettingsDB) (lib : AddonLibraryDefs) (p variant B : String)
    (povrs : List (String × String)) (prec srec : BundleRecord)
    (foo : String)
    (hvar : variant = "production" ∨ variant = "staging")
    (hproj : db.projects.lookup p = some povrs)
    (hovr : povrs.lookup variant = some B)
    (hbundle : bundleByName db B = some prec)
    (hstudio : flaggedBundle db variant = some srec)
    (hlib : lib.lookup foo = none) :
    ∃ rb, resolveBundle db lib (some p) none variant = .ok rb
      ∧ rb.addons.lookup foo = prec.addons.lookup foo
      ∧ foo ∉ rb.inherited_addons := by
  have hne : ¬(variant ≠ "production" ∧ variant ≠ "staging") := by
    rcases hvar with h | h
    · exact fun hc => hc.1 h
    · exact fun hc => hc.2 h
  refine ⟨⟨prec.name,
      (srec.addons.foldl (inheritStep lib) (prec.addons, [])).1,
      (srec.addons.foldl (inheritStep lib) (prec.addons, [])).2⟩, ?_, ?_, ?_⟩
  · simp only [resolveBundle, hproj, hovr, if_pos hvar, if_neg hne,
      hbundle, hstudio]
    rw [if_pos trivial]
  · exact (inherit_fold_foo_untouched lib foo srec.addons
      (fun _ _ _ => hlib) prec.addons []).1
  · intro hmem
    exact absurd ((inherit_fold_foo_untouched lib foo srec.addons
      (fun _ _ _ => hlib) prec.addons []).2.mp hmem) (List.not_mem_nil _)

theorem apply_leaf_right (s : Doc) (x : String) :
    apply_overrides s (.leaf x) = .leaf x := by
  cases s <;> simp [apply_overrides]

theorem apply_obj_obj (a b : List (String × Doc)) :
    apply_overrides (.obj a) (.obj b) = .obj (applyFields a b) := by
  simp [apply_overrides]

theorem apply_leaf_obj (x : String) (b : List (String × Doc)) :
    apply_overrides (.leaf x) (.obj b) = .obj b := by
  simp [apply_overrides]

theorem applyFields_nil (a : List (String × Doc)) : applyFields a [] = a := by
  simp [applyFields]

theorem applyFields_cons (a : List (String × Doc)) (k : String) (w : Doc)
    (rest : List (String × Doc)) :
    applyFields a ((k, w) :: rest) = applyFields (setField a k w) rest := by
  simp [applyFields]

theorem setField_nil (k : String) (w : Doc) : setField [] k w = [(k, w)] := by
  simp [setField]

theorem setField_cons (k₀ : String) (v : Doc) (t : List (String × Doc))
    (k : String) (w : Doc) :
    setField ((k₀, v) :: t) k w =
      if k₀ = k then (k₀, apply_overrides v w) :: t
      else (k₀, v) :: setField t k w := by
  simp [setField]

theorem lookup_isSome_of_mem_keys {k : String} {l : List (String × Doc)}
    (h : k ∈ l.map Prod.fst) : (l.lookup k).isSome := by
  rw [List.lookup_isSome_iff]
  obtain ⟨p, hp, hpk⟩ := List.mem_map.mp h
  exact ⟨p, hp, beq_iff_eq.mpr hpk.symm⟩

theorem lookup_eq_none_of_not_mem_keys {k : String} {l : List (String × Doc)}
    (h : k ∉ l.map Prod.fst) : l.lookup k = none := by
  rw [List.lookup_eq_none_iff]
  intro p hp
  exact bne_iff_ne.mpr (fun he => h (he ▸ List.mem_map_of_mem Prod.fst hp))

theorem mem_of_lookup_eq_some {k : String} {w : Doc}
    {l : List (String × Doc)} (h : l.lookup k = some w) : (k, w) ∈ l := by
  obtain ⟨l₁, l₂, rfl, -⟩ := List.lookup_eq_some_iff.mp h
  exact List.mem_append.mpr (Or.inr (List.mem_cons_self _ _))

theorem lookup_some_of_mem_nodup {l : List (String × Doc)} {k : String}
    {v : Doc} (hn : (l.map Prod.fst).Nodup) (hm : (k, v) ∈ l) :
    l.lookup k = some v := by
  induction l with
  | nil => exact absurd hm (List.not_mem_nil _)
  | cons e t ih =>
    obtain ⟨k₀, v₀⟩ := e
    rw [List.map_cons, List.nodup_cons] at hn
    rcases List.mem_cons.mp hm with hh | ht
    · obtain ⟨h1, h2⟩ := Prod.mk.injEq .. ▸ hh
      subst h1
      subst h2
      exact List.lookup_cons_self
    · have hk : k ≠ k₀ := by
        intro he
        have hmem : k ∈ List.map Prod.fst t := List.mem_map_of_mem Prod.fst ht
        rw [he] at hmem
        exact hn.1 hmem
      have hbeq : (k == k₀) = false := beq_eq_false_iff_ne.mpr hk
      rw [List.lookup_cons]
      simp only [hbeq]
      exact ih hn.2 ht

theorem setField_lookup_ne (a : List (String × Doc)) (k k' : String)
    (w : Doc) (h : k' ≠ k) :
    (setField a k w).lookup k' = a.lookup k' := by
  have hbeq : (k' == k) = false := beq_eq_false_iff_ne.mpr h
  induction a with
  | nil =>
    rw [setField_nil, List.lookup_cons]
    simp only [hbeq]
  | cons e t ih =>
    obtain ⟨k₀, v⟩ := e
    rw [setField_cons]
    by_cases h₀ : k₀ = k
    · rw [if_pos h₀, List.lookup_cons, List.lookup_cons]
      have hbeq₀ : (k' == k₀) = false :=
        beq_eq_false_iff_ne.mpr (h₀ ▸ h)
      simp only [hbeq₀]
    · rw [if_neg h₀, List.lookup_cons, List.lookup_cons]
      cases hbeq₀ : (k' == k₀) with
      | true => rfl
      | false => simp only [ih]

theorem setField_keys_mem (a : List (String × Doc)) (k : String) (w : Doc)
    (h : k ∈ a.map Prod.fst) :
    (setField a k w).map Prod.fst = a.map Prod.fst := by
  induction a with
  | nil => exact absurd h (List.not_mem_nil _)
  | cons e t ih =>
    obtain ⟨k₀, v⟩ := e
    rw [List.map_cons] at h
    rw [setField_cons]
    by_cases h₀ : k₀ = k
    · rw [if_pos h₀]
      rfl
    · rw [if_neg h₀, List.map_cons, List.map_cons]
      rcases List.mem_cons.mp h with hh | ht
      · exact absurd hh.symm h₀
      · rw [ih ht]

theorem setField_keys_not_mem (a : List (String × Doc)) (k : String) (w : Doc)
    (h : k ∉ a.map Prod.fst) :
    (setField a k w).map Prod.fst = a.map Prod.fst ++ [k] := by
  induction a with
  | nil => rw [setField_nil]; rfl
  | cons e t ih =>
    obtain ⟨k₀, v⟩ := e
    rw [List.map_cons] at h
    have h₀ : k₀ ≠ k := by
      intro he
      apply h
      rw [← he]
      exact List.mem_cons_self _ _
    rw [setField_cons, if_neg h₀, List.map_cons,
      ih (fun ht => h (List.mem_cons_of_mem _ ht)), List.map_cons]
    rfl

theorem mapMerge_nil (a : List (String × Doc)) : mapMerge a [] = a := by
  simp [mapMerge]

theorem mapMerge_cons_fresh (t : List (String × Doc)) (k : String) (w : Doc)
    (rest : List (String × Doc)) (h : k ∉ t.map Prod.fst) :
    mapMerge t ((k, w) :: rest) = mapMerge t rest := by
  unfold mapMerge
  apply List.map_congr_left
  intro kv hkv
  have hk : kv.1 ≠ k := by
    intro he
    exact h (he ▸ List.mem_map_of_mem Prod.fst hkv)
  rw [List.lookup_cons]
  simp only [beq_eq_false_iff_ne.mpr hk]

theorem mapMerge_setField_mem (a : List (String × Doc)) (k : String) (w : Doc)
    (rest : List (String × Doc)) (hn : (a.map Prod.fst).Nodup)
    (hk : rest.lookup k = none) (hmem : k ∈ a.map Prod.fst) :
    mapMerge (setField a k w) rest = mapMerge a ((k, w) :: rest) := by
  induction a with
  | nil => exact absurd hmem (List.not_mem_nil _)
  | cons e t ih =>
    obtain ⟨k₀, v⟩ := e
    rw [List.map_cons, List.nodup_cons] at hn
    rw [List.map_cons] at hmem
    rw [setField_cons]
    by_cases h₀ : k₀ = k
    · subst h₀
      rw [if_pos rfl]
      show mapMerge ((k₀, apply_overrides v w) :: t) rest =
        mapMerge ((k₀, v) :: t) ((k₀, w) :: rest)
      unfold mapMerge
      rw [List.map_cons, List.map_cons]
      have hhead : ((k₀, w) :: rest).lookup k₀ = some w :=
        List.lookup_cons_self
      simp only [hk, hhead]
      rw [← mapMerge, ← mapMerge, mapMerge_cons_fresh t k₀ w rest hn.1]
    · rw [if_neg h₀]
      have hmem' : k ∈ t.map Prod.fst := by
        rcases List.mem_cons.mp hmem with hh | ht
        · exact absurd hh.symm h₀
        · exact ht
      show mapMerge ((k₀, v) :: setField t k w) rest =
        mapMerge ((k₀, v) :: t) ((k, w) :: rest)
      unfold mapMerge
      rw [List.map_cons, List.map_cons]
      have hk₀ : ((k, w) :: rest).lookup k₀ = rest.lookup k₀ := by
        rw [List.lookup_cons]
        simp only [beq_eq_false_iff_ne.mpr h₀]
      rw [hk₀]
      rw [← mapMerge, ← mapMerge, ih hn.2 hmem']

theorem mapMerge_setField_not_mem (a : List (String × Doc)) (k : String)
    (w : Doc) (rest : List (String × Doc))
    (hk : rest.lookup k = none) (hmem : k ∉ a.map Prod.fst) :
    mapMerge (setField a k w) rest =
      mapMerge a ((k, w) :: rest) ++ [(k, w)] := by
  induction a with
  | nil =>
    rw [setField_nil]
    simp [mapMerge, hk]
  | cons e t ih =>
    obtain ⟨k₀, v⟩ := e
    rw [List.map_cons] at hmem
    have h₀ : k₀ ≠ k := by
      intro he
      apply hmem
      rw [← he]
      exact List.mem_cons_self _ _
    have hmem' : k ∉ t.map Prod.fst :=
      fun ht => hmem (List.mem_cons_of_mem _ ht)
    rw [setField_cons, if_neg h₀]
    show mapMerge ((k₀, v) :: setField t k w) rest =
      mapMerge ((k₀, v) :: t) ((k, w) :: rest) ++ [(k, w)]
    unfold mapMerge
    rw [List.map_cons, List.map_cons]
    have hk₀ : ((k, w) :: rest).lookup k₀ = rest.lookup k₀ := by
      rw [List.lookup_cons]
      simp only [beq_eq_false_iff_ne.mpr h₀]
    rw [hk₀]
    rw [← mapMerge, ← mapMerge, ih hmem']
    rfl

theorem newEntries_setField (a : List (String × Doc)) (k : String) (w : Doc)
    (rest : List (String × Doc)) (hk : k ∉ rest.map Prod.fst) :
    newEntries (setField a k w) rest = newEntries a rest := by
  unfold newEntries
  apply List.filter_congr
  intro kv hkv
  have hne : kv.1 ≠ k := by
    intro he
    exact hk (he ▸ List.mem_map_of_mem Prod.fst hkv)
  rw [setField_lookup_ne _ _ _ _ hne]

theorem newEntries_cons_mem (a : List (String × Doc)) (k : String) (w : Doc)
    (rest : List (String × Doc)) (h : (a.lookup k).isNone = false) :
    newEntries a ((k, w) :: rest) = newEntries a rest := by
  unfold newEntries
  rw [List.filter_cons]
  simp only [h]
  rfl

theorem newEntries_cons_fresh (a : List (String × Doc)) (k : String) (w : Doc)
    (rest : List (String × Doc)) (h : a.lookup k = none) :
    newEntries a ((k, w) :: rest) = (k, w) :: newEntries a rest := by
  unfold newEntries
  rw [List.filter_cons]
  simp only [h]
  rfl

/-- Closed form of `applyFields` on mappings with distinct keys: the base
entries, deep-merged where the override shares a key, followed by the
override entries with keys new to the base. -/
theorem applyFields_char : ∀ (b a : List (String × Doc)),
    (a.map Prod.fst).Nodup → (b.map Prod.fst).Nodup →
    applyFields a b = mapMerge a b ++ newEntries a b := by
  intro b
  induction b with
  | nil =>
    intro a hna _
    rw [applyFields_nil, mapMerge_nil]
    simp [newEntries]
  | cons e rest ih =>
    intro a hna hnb
    obtain ⟨k, w⟩ := e
    rw [List.map_cons, List.nodup_cons] at hnb
    obtain ⟨hkrest, hnrest⟩ := hnb
    have hkrest' : rest.lookup k = none :=
      lookup_eq_none_of_not_mem_keys hkrest
    rw [applyFields_cons]
    by_cases hmem : k ∈ a.map Prod.fst
    · have hkeys := setField_keys_mem a k w hmem
      have hna' : ((setField a k w).map Prod.fst).Nodup := by
        rw [hkeys]; exact hna
      rw [ih (setField a k w) hna' hnrest,
        mapMerge_setField_mem a k w rest hna hkrest' hmem,
        newEntries_setField a k w rest hkrest]
      have hnone : ((a.lookup k).isNone) = false := by
        have hsome := lookup_isSome_of_mem_keys hmem
        cases hcase : a.lookup k with
        | none => rw [hcase] at hsome; simp at hsome
        | some _ => rfl
      rw [newEntries_cons_mem a k w rest hnone]
    · have hkeys := setField_keys_not_mem a k w hmem
      have hna' : ((setField a k w).map Prod.fst).Nodup := by
        rw [hkeys]
        simp [List.nodup_append, hna, hmem]
      rw [ih (setField a k w) hna' hnrest,
        mapMerge_setField_not_mem a k w rest hkrest' hmem,
        newEntries_setField a k w rest hkrest,
        newEntries_cons_fresh a k w rest
          (lookup_eq_none_of_not_mem_keys hmem),
        List.append_assoc]
      rfl

theorem mapMerge_append (a₁ a₂ b : List (String × Doc)) :
    mapMerge (a₁ ++ a₂) b = mapMerge a₁ b ++ mapMerge a₂ b := by
  simp [mapMerge]

theorem mapMerge_keys (a b : List (String × Doc)) :
    (mapMerge a b).map Prod.fst = a.map Prod.fst := by
  unfold mapMerge
  rw [List.map_map]
  apply List.map_congr_left
  intro kv _
  rw [Function.comp_apply]
  cases hl : b.lookup kv.1 <;> simp [hl]

theorem fieldsWf_mem : ∀ {fs : List (String × Doc)},
    Doc.fieldsWf fs = true → ∀ {k : String} {v : Doc}, (k, v) ∈ fs →
    v.wf = true := by
  intro fs
  induction fs with
  | nil => intro _ k v hm; exact absurd hm (List.not_mem_nil _)
  | cons e t ih =>
    intro h k v hm
    obtain ⟨k₀, v₀⟩ := e
    have h' : v₀.wf = true ∧ Doc.fieldsWf t = true := by
      simpa [Doc.fieldsWf] using h
    rcases List.mem_cons.mp hm with hh | ht
    · have hv : v = v₀ := by
        have := congrArg Prod.snd hh
        simpa using this
      rw [hv]
      exact h'.1
    · exact ih h'.2 ht

/-- Deep-merging the same well-formed override twice is the same as merging
it once. -/
theorem apply_overrides_idem_aux :
    ∀ (n : Nat) (o : Doc), sizeOf o ≤ n → o.wf = true →
      ∀ s : Doc, s.wf = true →
        apply_overrides (apply_overrides s o) o = apply_overrides s o := by
  intro n
  induction n using Nat.strong_induction_on with
  | _ n ih =>
    intro o hsz hwf s hswf
    cases o with
    | leaf x => rw [apply_leaf_right, apply_leaf_right]
    | obj b =>
      have hb : (b.map Prod.fst).Nodup ∧ Doc.fieldsWf b = true := by
        simpa [Doc.wf] using hwf
      have hstep : ∀ (w : Doc), (∃ k, (k, w) ∈ b) → w.wf = true →
          ∀ v : Doc, v.wf = true →
          apply_overrides (apply_overrides v w) w = apply_overrides v w := by
        intro w hex hw v hv
        obtain ⟨k, hkw⟩ := hex
        have h1 : sizeOf ((k, w) : String × Doc) < sizeOf b :=
          List.sizeOf_lt_of_mem hkw
        have h2 : sizeOf ((k, w) : String × Doc) = 1 + sizeOf k + sizeOf w := by
          rfl
        have h3 : sizeOf (Doc.obj b) = 1 + sizeOf b := by
          simp
        have hlt : sizeOf w < n := by omega
        exact ih (sizeOf w) hlt w le_rfl hw v hv
      have hself : ∀ (w : Doc), (∃ k, (k, w) ∈ b) → w.wf = true →
          apply_overrides w w = w := by
        intro w hex hw
        cases w with
        | leaf x => rw [apply_leaf_right]
        | obj c =>
          have h := hstep (.obj c) hex hw (.leaf "") (by simp [Doc.wf])
          rwa [apply_leaf_obj] at h
      cases s with
      | leaf x =>
        rw [apply_leaf_obj, apply_obj_obj]
        have hff : applyFields b b = b := by
          rw [applyFields_char b b hb.1 hb.1]
          have hnew : newEntries b b = [] := by
            unfold newEntries
            rw [List.filter_eq_nil_iff]
            intro kv hkv
            have hsome :=
              lookup_isSome_of_mem_keys (List.mem_map_of_mem Prod.fst hkv)
            cases hcase : b.lookup kv.1 with
            | none => rw [hcase] at hsome; simp at hsome
            | some _ => simp [hcase]
          have hmm : mapMerge b b = b := by
            unfold mapMerge
            conv_rhs => rw [← List.map_id b]
            apply List.map_congr_left
            intro kv hkv
            obtain ⟨m, v⟩ := kv
            have hl : b.lookup m = some v := lookup_some_of_mem_nodup hb.1 hkv
            simp only [hl]
            rw [hself v ⟨m, hkv⟩ (fieldsWf_mem hb.2 hkv)]
            rfl
          rw [hnew, hmm, List.append_nil]
        rw [hff]
      | obj a =>
        have ha : (a.map Prod.fst).Nodup ∧ Doc.fieldsWf a = true := by
          simpa [Doc.wf] using hswf
        rw [apply_obj_obj, apply_obj_obj]
        suffices h : applyFields (applyFields a b) b = applyFields a b by
          rw [h]
        have hchar := applyFields_char b a ha.1 hb.1
        have hC_keys : (applyFields a b).map Prod.fst =
            a.map Prod.fst ++ (newEntries a b).map Prod.fst := by
          rw [hchar, List.map_append, mapMerge_keys]
        have hCn : ((applyFields a b).map Prod.fst).Nodup := by
          rw [hC_keys, List.nodup_append]
          refine ⟨ha.1, ?_, ?_⟩
          · exact hb.1.sublist ((List.filter_sublist b).map Prod.fst)
          · intro x hx hx'
            obtain ⟨kv, hkv, hkvx⟩ := List.mem_map.mp hx'
            have hpred := (List.mem_filter.mp hkv).2
            have hlook : a.lookup kv.1 = none := by
              cases hcase : a.lookup kv.1 with
              | none => rfl
              | some _ => rw [hcase] at hpred; simp at hpred
            rw [List.lookup_eq_none_iff] at hlook
            obtain ⟨p, hp, hpx⟩ := List.mem_map.mp hx
            have := hlook p hp
            rw [bne_iff_ne] at this
            exact this (hkvx ▸ hpx ▸ rfl)
        rw [applyFields_char b (applyFields a b) hCn hb.1]
        have hnew2 : newEntries (applyFields a b) b = [] := by
          unfold newEntries
          rw [List.filter_eq_nil_iff]
          intro kv hkv
          have hkey : kv.1 ∈ (applyFields a b).map Prod.fst := by
            rw [hC_keys, List.mem_append]
            by_cases hka : kv.1 ∈ a.map Prod.fst
            · exact Or.inl hka
            · right
              have hmemnew : kv ∈ newEntries a b := by
                unfold newEntries
                rw [List.mem_filter]
                refine ⟨hkv, ?_⟩
                rw [lookup_eq_none_of_not_mem_keys hka]
                rfl
              exact List.mem_map_of_mem Prod.fst hmemnew
          have hsome := lookup_isSome_of_mem_keys hkey
          cases hcase : (applyFields a b).lookup kv.1 with
          | none => rw [hcase] at hsome; simp at hsome
          | some _ => simp [hcase]
        rw [hnew2, List.append_nil, hchar, mapMerge_append]
        have hX : mapMerge (mapMerge a b) b = mapMerge a b := by
          unfold mapMerge
          rw [List.map_map]
          apply List.map_congr_left
          intro kv hkv
          obtain ⟨m, v⟩ := kv
          cases hmb : b.lookup m with
          | none => simp only [Function.comp, hmb]
          | some w =>
            have hwmem : (m, w) ∈ b := mem_of_lookup_eq_some hmb
            have hwwf : w.wf = true := fieldsWf_mem hb.2 hwmem
            have hvwf : v.wf = true := fieldsWf_mem ha.2 hkv
            simp only [Function.comp, hmb]
            rw [hstep w ⟨m, hwmem⟩ hwwf v hvwf]
        have hY : mapMerge (newEntries a b) b = newEntries a b := by
          unfold mapMerge
          conv_rhs => rw [← List.map_id (newEntries a b)]
          apply List.map_congr_left
          intro kv hkv
          obtain ⟨m, w⟩ := kv
          have hmemb : (m, w) ∈ b := (List.mem_filter.mp hkv).1
          have hl : b.lookup m = some w := lookup_some_of_mem_nodup hb.1 hmemb
          simp only [hl]
          rw [hself w ⟨m, hmemb⟩ (fieldsWf_mem hb.2 hmemb)]
          rfl
        rw [hX, hY]

/-- Deep-merging the same well-formed override document twice equals merging
it once (`apply_overrides` is right-idempotent). -/
theorem apply_overrides_idem (s o : Doc) (hs : s.wf = true)
    (ho : o.wf = true) :
    apply_overrides (apply_overrides s o) o = apply_overrides s o :=
  apply_overrides_idem_aux (sizeOf o) o le_rfl ho s hs

/-- Keys the override does not mention keep their base value. -/
theorem applyFields_lookup_absent (k : String) :
    ∀ (b : List (String × Doc)), b.lookup k = none →
    ∀ a, (applyFields a b).lookup k = a.lookup k := by
  intro b
  induction b with
  | nil => intro _ a; rw [applyFields_nil]
  | cons e rest ih =>
    intro hk a
    obtain ⟨m, w⟩ := e
    have hkm : (k == m) = false ∧ rest.lookup k = none := by
      rw [List.lookup_cons] at hk
      cases hbeq : (k == m) with
      | true => rw [hbeq] at hk; exact Option.noConfusion hk
      | false => rw [hbeq] at hk; exact ⟨rfl, hk⟩
    rw [applyFields_cons, ih hkm.2 (setField a m w),
      setField_lookup_ne a m k w (beq_eq_false_iff_ne.mp hkm.1)]

/-- C4: the effective project-level settings document is the addon default
document deep-merged with the studio override document and then the project
override document, in that order (the double application of the studio layer
in `get_project_settings` collapses by idempotence of the deep merge); an
absent defaults document propagates as None, absent override layers are
no-ops, and a key the project layer does not set keeps its value from the
lower layers. -/
theorem get_project_settings_layering
    (dfields studio project : List (String × Doc))
    (hwf_d : (Doc.obj dfields).wf = true)
    (hwf_s : (Doc.obj studio).wf = true) :
    BaseServerAddon.get_project_settings (some (.obj dfields))
        studio project =
      some (apply_overrides
        (apply_overrides (.obj dfields) (.obj studio)) (.obj project))
    ∧ BaseServerAddon.get_project_settings (some (.obj dfields)) [] [] =
        some (.obj dfields)
    ∧ BaseServerAddon.get_project_settings none studio project = none
    ∧ (∀ k, project.lookup k = none →
        (applyFields (applyFields dfields studio) project).lookup k =
          (applyFields dfields studio).lookup k) := by
  refine ⟨?_, ?_, rfl, ?_⟩
  · unfold BaseServerAddon.get_project_settings
      BaseServerAddon.get_studio_settings
    by_cases hse : studio.isEmpty
    · have hs : studio = [] := List.isEmpty_iff.mp hse
      subst hs
      have hnil : apply_overrides (.obj dfields)
          (.obj ([] : List (String × Doc))) = .obj dfields := by
        rw [apply_obj_obj, applyFields_nil]
      simp only [List.isEmpty_nil, if_true, hnil]
      by_cases hpe : project.isEmpty
      · have hp : project = [] := List.isEmpty_iff.mp hpe
        subst hp
        simp only [List.isEmpty_nil, if_true, hnil]
      · have hpeb : project.isEmpty = false := by
          cases h : project.isEmpty
          · rfl
          · exact absurd h hpe
        simp only [hpeb, Bool.false_eq_true, if_false]
    · have hseb : studio.isEmpty = false := by
        cases h : studio.isEmpty
        · rfl
        · exact absurd h hse
      have hidem := apply_overrides_idem (.obj dfields) (.obj studio)
        hwf_d hwf_s
      simp only [hseb, Bool.false_eq_true, if_false, hidem]
      by_cases hpe : project.isEmpty
      · have hp : project = [] := List.isEmpty_iff.mp hpe
        subst hp
        have hnil3 : apply_overrides
            (apply_overrides (.obj dfields) (.obj studio))
            (.obj ([] : List (String × Doc))) =
              apply_overrides (.obj dfields) (.obj studio) := by
          rw [apply_obj_obj, apply_obj_obj, applyFields_nil]
        simp only [List.isEmpty_nil, if_true, hnil3]
      · have hpeb : project.isEmpty = false := by
          cases h : project.isEmpty
          · rfl
          · exact absurd h hpe
        simp only [hpeb, Bool.false_eq_true, if_false]
  · rfl
  · intro k hk
    exact applyFields_lookup_absent k project hk (applyFields dfields studio)

/-- C4 witness: the spec's own example — project override `x.y = 2` over
studio `x.y = 1, x.z = 3` yields `x.y = 2, x.z = 3` and the untouched
sibling `z` is preserved. -/
theorem get_project_settings_layering_witness :
    ((Doc.obj [("x", .obj [("y", .leaf "0"), ("z", .leaf "0")])]).wf = true
      ∧ (Doc.obj [("x", .obj [("y", .leaf "1"), ("z", .leaf "3")])]).wf
          = true) ∧
    (BaseServerAddon.get_project_settings
        (some (.obj [("x", .obj [("y", .leaf "0"), ("z", .leaf "0")])]))
        [("x", .obj [("y", .leaf "1"), ("z", .leaf "3")])]
        [("x", .obj [("y", .leaf "2")])] =
      some (apply_overrides
        (apply_overrides
          (.obj [("x", .obj [("y", .leaf "0"), ("z", .leaf "0")])])
          (.obj [("x", .obj [("y", .leaf "1"), ("z", .leaf "3")])]))
        (.obj [("x", .obj [("y", .leaf "2")])]))) ∧
    BaseServerAddon.get_project_settings
        (some (.obj [("x", .obj [("y", .leaf "0"), ("z", .leaf "0")])]))
        [("x", .obj [("y", .leaf "1"), ("z", .leaf "3")])]
        [("x", .obj [("y", .leaf "2")])] =
      some (.obj [("x", .obj [("y", .leaf "2"), ("z", .leaf "3")])]) :=
  ⟨⟨by simp [Doc.wf, Doc.fieldsWf], by simp [Doc.wf, Doc.fieldsWf]⟩,
    (get_project_settings_layering
      [("x", .obj [("y", .leaf "0"), ("z", .leaf "0")])]
      [("x", .obj [("y", .leaf "1"), ("z", .leaf "3")])]
      [("x", .obj [("y", .leaf "2")])]
      (by simp [Doc.wf, Doc.fieldsWf])
      (by simp [Doc.wf, Doc.fieldsWf])).1,
    by simp [BaseServerAddon.get_project_settings,
      BaseServerAddon.get_studio_settings, apply_overrides, applyFields,
      setField]⟩

/-- C6: failure isolation in the batch settings loop — if loading the
settings of one addon raises, that addon's entry is reported broken with a
reason and empty settings, every other addon of the bundle still gets its
normal entry, and the request as a whole still returns a response. -/
theorem settings_failure_isolation
    (db : SettingsDB) (lib : AddonLibraryDefs)
    (addonLookup : String → String → Option AddonInfo)
    (isBroken : String → String → Option (List (String × String)))
    (load : String → String → LoadAttempt)
    (project_name bundle_name : Option String) (variant : String)
    (summary : Bool) (rb : ResolvedBundle)
    (name version : String) (info : AddonInfo) (err : String)
    (hrb : resolveBundle db lib project_name bundle_name variant = .ok rb)
    (hmem : (name, some version) ∈ rb.addons)
    (hinfo : addonLookup name version = some info)
    (hfail : load name version = .failure err) :
    ∃ resp, get_all_settings db lib addonLookup isBroken load project_name
        bundle_name variant summary = .ok resp
      ∧ ({ name := name, title := name, version := version,
           settings := .obj [], site_settings := none,
           is_broken := true,
           reason := some [("error", "Unable to load settings"),
                           ("traceback", err)] } : AddonSettingsItemModel)
          ∈ resp.addons
      ∧ (∀ n v, (n, some v) ∈ rb.addons →
          entryFor addonLookup isBroken load summary n v ∈ resp.addons) := by
  have hmem_entries : ∀ n v, (n, some v) ∈ rb.addons →
      entryFor addonLookup isBroken load summary n v ∈
        sortEntries (buildEntries addonLookup isBroken load summary
          rb.addons) := by
    intro n v hnv
    unfold sortEntries
    rw [(List.mergeSort_perm _ _).mem_iff]
    unfold buildEntries
    exact List.mem_filterMap.mpr ⟨(n, some v), hnv, rfl⟩
  refine ⟨⟨rb.bundle_name,
      sortEntries (buildEntries addonLookup isBroken load summary rb.addons),
      rb.inherited_addons⟩, ?_, ?_, ?_⟩
  · unfold get_all_settings
    rw [hrb]
  · have he : entryFor addonLookup isBroken load summary name version =
        { name := name, title := name, version := version,
          settings := .obj [], site_settings := none,
          is_broken := true,
          reason := some [("error", "Unable to load settings"),
                          ("traceback", err)] } := by
      unfold entryFor
      rw [hinfo, hfail]
    rw [← he]
    exact hmem_entries name version hmem
  · exact hmem_entries

/-- C6 witness: with the "bad" addon's settings loading raising "boom", the
batch response still succeeds, contains the broken entry for "bad", and the
"good" addon's normal entry. -/
theorem settings_failure_isolation_witness :
    (resolveBundle wdb6 [] none (some "bundl") "production" =
        .ok ⟨"bundl", [("good", some "1.0.0"), ("bad", some "1.0.0")], []⟩
      ∧ ("bad", some "1.0.0") ∈
          [("good", some "1.0.0"), ("bad", some "1.0.0")]
      ∧ wAddonLookup "bad" "1.0.0" = some wAddonInfo
      ∧ wLoad "bad" "1.0.0" = .failure "boom") ∧
    (∃ resp, get_all_settings wdb6 [] wAddonLookup wIsBroken wLoad none
        (some "bundl") "production" false = .ok resp
      ∧ ({ name := "bad", title := "bad", version := "1.0.0",
           settings := .obj [], site_settings := none,
           is_broken := true,
           reason := some [("error", "Unable to load settings"),
                           ("traceback", "boom")] } : AddonSettingsItemModel)
          ∈ resp.addons
      ∧ (∀ n v, (n, some v) ∈
            ([("good", some "1.0.0"), ("bad", some "1.0.0")] :
              List (String × Option String)) →
          entryFor wAddonLookup wIsBroken wLoad false n v ∈ resp.addons)) :=
  ⟨⟨rfl, by decide, rfl, rfl⟩,
    settings_failure_isolation wdb6 [] wAddonLookup wIsBroken wLoad none
      (some "bundl") "production" false
      ⟨"bundl", [("good", some "1.0.0"), ("bad", some "1.0.0")], []⟩
      "bad" "1.0.0" wAddonInfo "boom" rfl (by decide) rfl rfl⟩

/-- C3 witness: resolving proj1/production inherits "foo" at the studio
version 9.9.9. -/
theorem bundle_inherit_non_overridable_witness :
    (("production" = "production" ∨ "production" = "staging")
      ∧ wdb.projects.lookup "proj1" =
          some [("production", "B"), ("staging", "B")]
      ∧ [("production", "B"), ("staging", "B")].lookup "production" = some "B"
      ∧ bundleByName wdb "B" = some wBundleB
      ∧ flaggedBundle wdb "production" = some wBundleS
      ∧ ("foo", some "9.9.9") ∈ wBundleS.addons
      ∧ (wBundleS.addons.map Prod.fst).Nodup
      ∧ wlib.lookup "foo" = some false) ∧
    (∃ rb, resolveBundle wdb wlib (some "proj1") none "production" = .ok rb
      ∧ rb.addons.lookup "foo" = some (some "9.9.9")
      ∧ "foo" ∈ rb.inherited_addons) :=
  ⟨⟨Or.inl rfl, by decide, by decide, by decide, by decide, by decide,
      by decide, by decide⟩,
    bundle_inherit_non_overridable wdb wlib "proj1" "production" "B"
      [("production", "B"), ("staging", "B")] wBundleB wBundleS
      "foo" (some "9.9.9") (Or.inl rfl) (by decide) (by decide) (by decide)
      (by decide) (by decide) (by decide) (by decide)⟩

/-- C8 witness: proj1 overrides its staging bundle to "B", but no studio
staging bundle is flagged, so resolution fails with the specific
NotFound detail. -/
theorem bundle_override_no_studio_witness :
    (("staging" = "production" ∨ "staging" = "staging")
      ∧ wdb.projects.lookup "proj1" =
          some [("production", "B"), ("staging", "B")]
      ∧ [("production", "B"), ("staging", "B")].lookup "staging" = some "B"
      ∧ bundleByName wdb "B" = some wBundleB
      ∧ flaggedBundle wdb "staging" = none) ∧
    resolveBundle wdb wlib (some "proj1") none "staging" =
      .error (.notFound
        "Unable to load project bundle. Studio staging bundle is not set") :=
  ⟨⟨Or.inr rfl, by decide, by decide, by decide, by decide⟩,
    bundle_override_no_studio wdb wlib "proj1" "staging" "B"
      [("production", "B"), ("staging", "B")] wBundleB (Or.inr rfl)
      (by decide) (by decide) (by decide) (by decide)⟩

/-- C10 witness: the studio addon "ghost" has no installed definition, so it
is neither forced into the resolved map nor listed as inherited. -/
theorem bundle_skip_uninstalled_witness :
    (("production" = "production" ∨ "production" = "staging")
      ∧ wdb.projects.lookup "proj1" =
          some [("production", "B"), ("staging", "B")]
      ∧ [("production", "B"), ("staging", "B")].lookup "production" = some "B"
      ∧ bundleByName wdb "B" = some wBundleB
      ∧ flaggedBundle wdb "production" = some wBundleS
      ∧ wlib.lookup "ghost" = none) ∧
    (∃ rb, resolveBundle wdb wlib (some "proj1") none "production" = .ok rb
      ∧ rb.addons.lookup "ghost" = wBundleB.addons.lookup "ghost"
      ∧ "ghost" ∉ rb.inherited_addons) :=
  ⟨⟨Or.inl rfl, by decide, by decide, by decide, by decide, by decide⟩,
    bundle_skip_uninstalled wdb wlib "proj1" "production" "B"
      [("production", "B"), ("staging", "B")] wBundleB wBundleS "ghost"
      (Or.inl rfl) (by decide) (by decide) (by decide) (by decide)
      (by decide)⟩

/-- C1: if any resolved group in the list has `enabled=false` for a category,
the `Permissions` returned by `AccessGroups.combine` has that category
disabled, no matter how many other groups enable it or where the disabling
group sits in the list. -/
theorem combine_disabled_sticky
    (reg : AccessGroups.Registry) (names : List String) (p : String)
    (c : Category) (n : String) (g : Permissions)
    (hmem : n ∈ names)
    (hres : AccessGroups.resolveGroup reg n p = some g)
    (hdis : g.enabledOf c = false) :
    (AccessGroups.combine reg names p).enabledOf c = false := by
  rw [AccessGroups.combine_enabledOf]
  have hg : g ∈ AccessGroups.resolved reg p names :=
    List.mem_filterMap.mpr ⟨n, hmem, hres⟩
  have hall : (AccessGroups.resolved reg p names).all
      (fun g => g.enabledOf c) = false :=
    List.all_eq_false.mpr ⟨g, hg, by simp [hdis]⟩
  simp [hall]

/-- C1 witness: disabling group "B" forces `create.enabled = false` even
though "A" enables it. -/
theorem combine_disabled_sticky_witness :
    ("B" ∈ ["A", "B"] ∧
      AccessGroups.resolveGroup wReg "B" "_" = some permCreateOff ∧
      permCreateOff.enabledOf .create = false) ∧
    (AccessGroups.combine wReg ["A", "B"] "_").enabledOf .create = false :=
  ⟨⟨by decide, by decide, by decide⟩,
    combine_disabled_sticky wReg ["A", "B"] "_" .create "B" permCreateOff
      (by decide) (by decide) (by decide)⟩

/-- C7: `combine` is total and unknown names contribute nothing: combining the
empty list, or a list of names none of which resolves, yields the default
`Permissions` with every category disabled; and deleting an unresolvable name
anywhere in the list leaves the result unchanged. -/
theorem combine_missing_groups
    (reg : AccessGroups.Registry) (names names₁ names₂ : List String)
    (p u : String)
    (hall : ∀ n ∈ names, AccessGroups.resolveGroup reg n p = none)
    (hu : AccessGroups.resolveGroup reg u p = none) :
    AccessGroups.combine reg [] p = Permissions.default
    ∧ AccessGroups.combine reg names p = Permissions.default
    ∧ (∀ c, Permissions.default.enabledOf c = false)
    ∧ AccessGroups.combine reg (names₁ ++ u :: names₂) p =
        AccessGroups.combine reg (names₁ ++ names₂) p := by
  refine ⟨rfl, ?_, ?_, ?_⟩
  · rw [AccessGroups.combine_eq]
    have : AccessGroups.resolved reg p names = [] := by
      simp only [AccessGroups.resolved, List.filterMap_eq_nil]
      exact hall
    rw [this]
  · intro c; cases c <;> rfl
  · rw [AccessGroups.combine_eq, AccessGroups.combine_eq]
    have : AccessGroups.resolved reg p (names₁ ++ u :: names₂) =
        AccessGroups.resolved reg p (names₁ ++ names₂) := by
      simp [AccessGroups.resolved, List.filterMap_append,
        List.filterMap_cons, hu]
    rw [this]

namespace AccessGroups

theorem perm_all_eq {α : Type} {l₁ l₂ : List α} (h : l₁.Perm l₂)
    (f : α → Bool) : l₁.all f = l₂.all f := by
  cases hb : l₂.all f with
  | false =>
    obtain ⟨x, hx, hfx⟩ := List.all_eq_false.mp hb
    exact List.all_eq_false.mpr ⟨x, h.mem_iff.mpr hx, hfx⟩
  | true =>
    exact List.all_eq_true.mpr
      (fun x hx => List.all_eq_true.mp hb x (h.mem_iff.mp hx))

theorem perm_isEmpty_eq {α : Type} {l₁ l₂ : List α} (h : l₁.Perm l₂) :
    l₁.isEmpty = l₂.isEmpty := by
  cases l₁ with
  | nil => rw [List.perm_nil.mp h.symm]
  | cons a t =>
    cases l₂ with
    | nil => exact absurd (List.perm_nil.mp h) (List.cons_ne_nil a t)
    | cons b u => rfl

theorem valsUnion_perm {α : Type} [DecidableEq α] {l₁ l₂ : List (GCat α)}
    (h : l₁.Perm l₂) (init : Finset α) :
    valsUnion l₁ init = valsUnion l₂ init :=
  h.foldl_eq' (fun x _ y _ z => Finset.union_right_comm z x.vals y.vals) init

theorem addonsUnion_perm {l₁ l₂ : List PCat} (h : l₁.Perm l₂)
    (init : Finset String) : addonsUnion l₁ init = addonsUnion l₂ init :=
  h.foldl_eq'
    (fun x _ y _ z => Finset.union_right_comm z x.addons y.addons) init

theorem anatomyOr_perm {l₁ l₂ : List PCat} (h : l₁.Perm l₂) (init : Bool) :
    anatomyOr l₁ init = anatomyOr l₂ init :=
  h.foldl_eq' (fun x _ y _ z => by
    rw [Bool.or_assoc, Bool.or_comm x.anatomy_update y.anatomy_update,
      ← Bool.or_assoc]) init

theorem foldl_mergeStep_field {α : Type} [DecidableEq α] (p : String)
    (F : Permissions → GCat α)
    (hF : ∀ r g, F (mergeStep p r g) = mergeGCat (F r) (F g))
    (l : List Permissions) :
    ∀ r, F (l.foldl (mergeStep p) r) = (l.map F).foldl mergeGCat (F r) := by
  induction l with
  | nil => intro r; rfl
  | cons g t ih =>
    intro r
    rw [List.foldl_cons, ih, List.map_cons, List.foldl_cons, hF]

theorem foldl_mergeStep_pfield (p : String) (l : List Permissions) :
    ∀ r, (l.foldl (mergeStep p) r).project_settings =
      (l.map (·.project_settings)).foldl mergePCat r.project_settings := by
  induction l with
  | nil => intro r; rfl
  | cons g t ih =>
    intro r
    rw [List.foldl_cons, ih, List.map_cons, List.foldl_cons]
    rfl

theorem foldl_mergeGCat_all {α : Type} [DecidableEq α] (l : List (GCat α)) :
    ∀ r : GCat α, r.enabled = true → l.all (·.enabled) = true →
      l.foldl mergeGCat r = ⟨true, valsUnion l r.vals⟩ := by
  induction l with
  | nil =>
    intro r hr _
    cases r
    simp_all [valsUnion]
  | cons g t ih =>
    intro r hr hall
    rw [List.all_cons] at hall
    obtain ⟨hg, ht⟩ := Bool.and_eq_true_iff.mp hall
    rw [List.foldl_cons]
    have hm : mergeGCat r g = ⟨true, r.vals ∪ g.vals⟩ := by
      simp [mergeGCat, hg, hr]
    rw [hm, ih _ rfl ht]
    rfl

theorem foldl_mergePCat_all (l : List PCat) :
    ∀ r : PCat, r.enabled = true → l.all (·.enabled) = true →
      l.foldl mergePCat r =
        ⟨true, addonsUnion l r.addons, anatomyOr l r.anatomy_update⟩ := by
  induction l with
  | nil =>
    intro r hr _
    cases r
    simp_all [addonsUnion, anatomyOr]
  | cons g t ih =>
    intro r hr hall
    rw [List.all_cons] at hall
    obtain ⟨hg, ht⟩ := Bool.and_eq_true_iff.mp hall
    rw [List.foldl_cons]
    have hm : mergePCat r g =
        ⟨true, r.addons ∪ g.addons, r.anatomy_update || g.anatomy_update⟩ := by
      simp [mergePCat, hg, hr]
    rw [hm, ih _ rfl ht]
    rfl

theorem seed_field {α : Type} (p : String) (F : Permissions → GCat α)
    (hstudio : ∀ g, F { g with studio_settings := {} } = F g)
    (g : Permissions) : F (seed p g) = F g := by
  unfold seed
  split
  · exact hstudio g
  · rfl

/-- Order-independence of one generic-category field of `combine`, under the
hypothesis that every resolved group has that category enabled. -/
theorem combine_field_perm {α : Type} [DecidableEq α]
    (reg : Registry) {names₁ names₂ : List String} (p : String)
    (F : Permissions → GCat α)
    (hF : ∀ r g, F (mergeStep p r g) = mergeGCat (F r) (F g))
    (hseed : ∀ g, F (seed p g) = F g)
    (hperm : names₁.Perm names₂)
    (hall : (resolved reg p names₁).all (fun g => (F g).enabled) = true) :
    F (combine reg names₁ p) = F (combine reg names₂ p) := by
  have hre : (resolved reg p names₁).Perm (resolved reg p names₂) :=
    hperm.filterMap _
  have hall₂ : (resolved reg p names₂).all (fun g => (F g).enabled) = true := by
    rw [← perm_all_eq hre]
    exact hall
  rw [combine_eq, combine_eq]
  revert hre hall hall₂
  generalize resolved reg p names₁ = L₁
  generalize resolved reg p names₂ = L₂
  intro hall hre hall₂
  cases L₁ with
  | nil =>
    rw [List.perm_nil.mp hre.symm]
  | cons g₁ t₁ =>
    cases L₂ with
    | nil => exact absurd (List.perm_nil.mp hre) (List.cons_ne_nil g₁ t₁)
    | cons g₂ t₂ =>
      rw [List.all_cons] at hall hall₂
      obtain ⟨hg₁, ht₁⟩ := Bool.and_eq_true_iff.mp hall
      obtain ⟨hg₂, ht₂⟩ := Bool.and_eq_true_iff.mp hall₂
      show F (List.foldl (mergeStep p) (seed p g₁) t₁) =
        F (List.foldl (mergeStep p) (seed p g₂) t₂)
      rw [foldl_mergeStep_field p F hF, foldl_mergeStep_field p F hF,
        hseed, hseed]
      rw [foldl_mergeGCat_all _ _ hg₁ (by simpa [List.all_map, Function.comp] using ht₁),
        foldl_mergeGCat_all _ _ hg₂ (by simpa [List.all_map, Function.comp] using ht₂)]
      have e₁ : valsUnion (t₁.map F) (F g₁).vals =
          valsUnion ((g₁ :: t₁).map F) ∅ := by
        simp [valsUnion]
      have e₂ : valsUnion (t₂.map F) (F g₂).vals =
          valsUnion ((g₂ :: t₂).map F) ∅ := by
        simp [valsUnion]
      rw [e₁, e₂, valsUnion_perm (hre.map F) ∅]

/-- Order-independence of the `project_settings` field of `combine`, under the
hypothesis that every resolved group has it enabled. -/
theorem combine_pfield_perm
    (reg : Registry) {names₁ names₂ : List String} (p : String)
    (hperm : names₁.Perm names₂)
    (hall : (resolved reg p names₁).all
      (fun g => g.project_settings.enabled) = true) :
    (combine reg names₁ p).project_settings =
      (combine reg names₂ p).project_settings := by
  have hre : (resolved reg p names₁).Perm (resolved reg p names₂) :=
    hperm.filterMap _
  have hall₂ : (resolved reg p names₂).all
      (fun g => g.project_settings.enabled) = true := by
    rw [← perm_all_eq hre]
    exact hall
  rw [combine_eq, combine_eq]
  revert hre hall hall₂
  generalize resolved reg p names₁ = L₁
  generalize resolved reg p names₂ = L₂
  intro hall hre hall₂
  cases L₁ with
  | nil =>
    rw [List.perm_nil.mp hre.symm]
  | cons g₁ t₁ =>
    cases L₂ with
    | nil => exact absurd (List.perm_nil.mp hre) (List.cons_ne_nil g₁ t₁)
    | cons g₂ t₂ =>
      rw [List.all_cons] at hall hall₂
      obtain ⟨hg₁, ht₁⟩ := Bool.and_eq_true_iff.mp hall
      obtain ⟨hg₂, ht₂⟩ := Bool.and_eq_true_iff.mp hall₂
      show (List.foldl (mergeStep p) (seed p g₁) t₁).project_settings =
        (List.foldl (mergeStep p) (seed p g₂) t₂).project_settings
      have hs : ∀ g : Permissions, (seed p g).project_settings =
          g.project_settings := by
        intro g
        unfold seed
        split <;> rfl
      rw [foldl_mergeStep_pfield, foldl_mergeStep_pfield, hs, hs]
      rw [foldl_mergePCat_all _ _ hg₁ (by simpa [List.all_map, Function.comp] using ht₁),
        foldl_mergePCat_all _ _ hg₂ (by simpa [List.all_map, Function.comp] using ht₂)]
      have e₁ : addonsUnion (t₁.map (·.project_settings))
            (g₁.project_settings).addons =
          addonsUnion ((g₁ :: t₁).map (·.project_settings)) ∅ := by
        simp [addonsUnion]
      have e₂ : addonsUnion (t₂.map (·.project_settings))
            (g₂.project_settings).addons =
          addonsUnion ((g₂ :: t₂).map (·.project_settings)) ∅ := by
        simp [addonsUnion]
      have a₁ : anatomyOr (t₁.map (·.project_settings))
            (g₁.project_settings).anatomy_update =
          anatomyOr ((g₁ :: t₁).map (·.project_settings)) false := by
        simp [anatomyOr]
      have a₂ : anatomyOr (t₂.map (·.project_settings))
            (g₂.project_settings).anatomy_update =
          anatomyOr ((g₂ :: t₂).map (·.project_settings)) false := by
        simp [anatomyOr]
      rw [e₁, e₂, a₁, a₂, addonsUnion_perm (hre.map _) ∅,
        anatomyOr_perm (hre.map _) false]

end AccessGroups

/-- C5 counterexample: `["A","B"]` and `["B","A"]` are permutations of the
same set, but combining them yields different `Permissions` values: when the
disabling group "B" is first, its stored folder-access list survives under
the disabled `create` category; when it comes second, the list is wiped. -/
theorem combine_perm_counterexample :
    (["A", "B"] : List String).Perm ["B", "A"] ∧
    AccessGroups.combine wReg ["A", "B"] "_" ≠
      AccessGroups.combine wReg ["B", "A"] "_" := by
  constructor
  · decide
  · decide

/-- C5 amended: all orderings of the same group-name set yield identical
per-category `enabled` flags; and for each category, whenever every resolved
group has that category enabled, the merged value sets (and the
`anatomy_update` flag) also agree across orderings.  (Value sets carried
under a category that some group disables may depend on the order.) -/
theorem combine_perm_amended
    (reg : AccessGroups.Registry) (names₁ names₂ : List String) (p : String)
    (hperm : names₁.Perm names₂) :
    (∀ c, (AccessGroups.combine reg names₁ p).enabledOf c =
        (AccessGroups.combine reg names₂ p).enabledOf c)
    ∧ ((AccessGroups.resolved reg p names₁).all
          (fun g => g.studio_settings.enabled) = true →
        (AccessGroups.combine reg names₁ p).studio_settings =
          (AccessGroups.combine reg names₂ p).studio_settings)
    ∧ ((AccessGroups.resolved reg p names₁).all
          (fun g => g.project_settings.enabled) = true →
        (AccessGroups.combine reg names₁ p).project_settings =
          (AccessGroups.combine reg names₂ p).project_settings)
    ∧ ((AccessGroups.resolved reg p names₁).all
          (fun g => g.create.enabled) = true →
        (AccessGroups.combine reg names₁ p).create =
          (AccessGroups.combine reg names₂ p).create)
    ∧ ((AccessGroups.resolved reg p names₁).all
          (fun g => g.read.enabled) = true →
        (AccessGroups.combine reg names₁ p).read =
          (AccessGroups.combine reg names₂ p).read)
    ∧ ((AccessGroups.resolved reg p names₁).all
          (fun g => g.update.enabled) = true →
        (AccessGroups.combine reg names₁ p).update =
          (AccessGroups.combine reg names₂ p).update)
    ∧ ((AccessGroups.resolved reg p names₁).all
          (fun g => g.delete.enabled) = true →
        (AccessGroups.combine reg names₁ p).delete =
          (AccessGroups.combine reg names₂ p).delete)
    ∧ ((AccessGroups.resolved reg p names₁).all
          (fun g => g.attrib_read.enabled) = true →
        (AccessGroups.combine reg names₁ p).attrib_read =
          (AccessGroups.combine reg names₂ p).attrib_read)
    ∧ ((AccessGroups.resolved reg p names₁).all
          (fun g => g.attrib_write.enabled) = true →
        (AccessGroups.combine reg names₁ p).attrib_write =
          (AccessGroups.combine reg names₂ p).attrib_write)
    ∧ ((AccessGroups.resolved reg p names₁).all
          (fun g => g.endpoints.enabled) = true →
        (AccessGroups.combine reg names₁ p).endpoints =
          (AccessGroups.combine reg names₂ p).endpoints) := by
  have hre : (AccessGroups.resolved reg p names₁).Perm
      (AccessGroups.resolved reg p names₂) := hperm.filterMap _
  refine ⟨?_, ?_, ?_, ?_, ?_, ?_, ?_, ?_, ?_, ?_⟩
  · intro c
    rw [AccessGroups.combine_enabledOf, AccessGroups.combine_enabledOf,
      AccessGroups.perm_isEmpty_eq hre, AccessGroups.perm_all_eq hre]
  · intro hall
    by_cases hp : p = "_"
    · subst hp
      exact AccessGroups.combine_field_perm reg "_"
        Permissions.studio_settings (by intro r g; simp [AccessGroups.mergeStep])
        (fun g => rfl) hperm hall
    · rw [AccessGroups.combine_studio_default hp,
        AccessGroups.combine_studio_default hp]
  · intro hall
    exact AccessGroups.combine_pfield_perm reg p hperm hall
  · intro hall
    exact AccessGroups.combine_field_perm reg p Permissions.create
      (fun r g => rfl) (fun g => by unfold AccessGroups.seed; split <;> rfl)
      hperm hall
  · intro hall
    exact AccessGroups.combine_field_perm reg p Permissions.read
      (fun r g => rfl) (fun g => by unfold AccessGroups.seed; split <;> rfl)
      hperm hall
  · intro hall
    exact AccessGroups.combine_field_perm reg p Permissions.update
      (fun r g => rfl) (fun g => by unfold AccessGroups.seed; split <;> rfl)
      hperm hall
  · intro hall
    exact AccessGroups.combine_field_perm reg p Permissions.delete
      (fun r g => rfl) (fun g => by unfold AccessGroups.seed; split <;> rfl)
      hperm hall
  · intro hall
    exact AccessGroups.combine_field_perm reg p Permissions.attrib_read
      (fun r g => rfl) (fun g => by unfold AccessGroups.seed; split <;> rfl)
      hperm hall
  · intro hall
    exact AccessGroups.combine_field_perm reg p Permissions.attrib_write
      (fun r g => rfl) (fun g => by unfold AccessGroups.seed; split <;> rfl)
      hperm hall
  · intro hall
    exact AccessGroups.combine_field_perm reg p Permissions.endpoints
      (fun r g => rfl) (fun g => by unfold AccessGroups.seed; split <;> rfl)
      hperm hall

/-- C5 amended witness: the amended order-independence at a concrete
permutation pair. -/
theorem combine_perm_amended_witness :
    (["A", "B"] : List String).Perm ["B", "A"] ∧
    (∀ c, (AccessGroups.combine wReg ["A", "B"] "_").enabledOf c =
        (AccessGroups.combine wReg ["B", "A"] "_").enabledOf c) :=
  ⟨by decide,
    (combine_perm_amended wReg ["A", "B"] ["B", "A"] "_" (by decide)).1⟩

/-- C7 witness: unknown names "X" and "Y" at project scope "proj" resolve to
nothing, so combining them gives the all-disabled default. -/
theorem combine_missing_groups_witness :
    ((∀ n ∈ ["X", "Y"], AccessGroups.resolveGroup wReg n "proj" = none) ∧
      AccessGroups.resolveGroup wReg "X" "proj" = none) ∧
    (AccessGroups.combine wReg [] "proj" = Permissions.default
    ∧ AccessGroups.combine wReg ["X", "Y"] "proj" = Permissions.default
    ∧ (∀ c, Permissions.default.enabledOf c = false)
    ∧ AccessGroups.combine wReg (["Y"] ++ "X" :: []) "proj" =
        AccessGroups.combine wReg (["Y"] ++ []) "proj") :=
  ⟨⟨by decide, by decide⟩,
    combine_missing_groups wReg ["X", "Y"] ["Y"] [] "proj" "X"
      (by decide) (by decide)⟩
